import Mathlib

/-!
A verification development for the dual-order navigation index of the yee3
image viewer (src/yee3/app.py).  The embedding covers the SortedList and
FastOrderedSet containers, the ImageData records with their stable
pseudo-random keys, and the viewer-level operations: ImageViewer.remove,
the batch reconciliation path (loadImagesFromFolder on a rescan plus
handleNewImage), axis-order toggling, and the navigation loops
verticalNextImage / horizontalNextImage.

Modelling conventions: Python integers are unbounded, so Nat and Int are
used directly; float timestamps are modelled as integer-valued seconds
(no claim depends on fractional parts); dict is an
association list; a raised exception is Option.none.  GUI-only effects
(labels, status bar, repaint) are dropped; the loaded pixmap is modelled
by the path it was decoded from; the external image decoders are an
oracle function from paths to success or failure.
-/

/-- Python list.insert n x: inserts x before position n, appending when n
is at or beyond the end of the list. -/
def insertAt {α : Type} : Nat → α → List α → List α
  | _, x, [] => [x]
  | 0, x, l => x :: l
  | n + 1, x, a :: t => a :: insertAt n x t

/-- bisect.bisect_left, as used by SortedList.bisect_left: the leftmost
index at which x can be inserted keeping the list sorted.  The lists it
is applied to are maintained in sorted order, on which this linear scan
returns exactly what the binary search of the source returns. -/
def bisectLeft {K : Type} [LinearOrder K] : List K → K → Nat
  | [], _ => 0
  | a :: t, x => if a < x then bisectLeft t x + 1 else 0

/-- bisect.insort_left, as used by SortedList.add: insert x at its
leftmost sorted position. -/
def insortLeft {K : Type} [LinearOrder K] : List K → K → List K
  | [], x => [x]
  | a :: t, x => if a < x then a :: insortLeft t x else x :: a :: t

/-- SortedList.remove: compute the bisect_left position of x; if that
position exists and holds an element equal to x, pop it, otherwise a
ValueError is raised (modelled by none). -/
def sortedRemove {K : Type} [LinearOrder K] (l : List K) (x : K) : Option (List K) :=
  match l.get? (bisectLeft l x) with
  | some y => if y = x then some (l.eraseIdx (bisectLeft l x)) else none
  | none => none

/-- The fields of os.stat_result that the application reads.  Timestamps
are float seconds, modelled as integer-valued seconds (no claim depends
on fractional timestamps); st_ino is a nonnegative
integer. -/
structure StatResult where
  st_ino : Nat
  st_ctime : Int
  st_mtime : Int
deriving DecidableEq, Repr

/-- ImageFile: one discovered directory entry after a successful stat
(path already NFD-normalized, name its basename). -/
structure ImageFile where
  name : String
  path_nf : String
  stat_result : StatResult
deriving DecidableEq, Repr

/-- ImageData: the record stored in the three ordered sets. -/
structure ImageData where
  name : String
  path_nf : String
  st_mtime : Int
  pseudo_random_hash : String
deriving DecidableEq, Repr

/-- The fixed-width rendering of st_ctime used in the identity-token
fallback of ImageData.generate (a Python format with 32 decimals).  The
claims depend only on this being a function of the timestamp, so the
exact decimal rendering is not reproduced. -/
def formatFixed32 (q : Int) : String :=
  toString q

/-- The per-file identity token computed inside ImageData.generate: the
inode number when positive, otherwise the file name joined with its
creation time. -/
def identityToken (f : ImageFile) : String :=
  if f.stat_result.st_ino > 0 then toString f.stat_result.st_ino
  else f.name ++ ":" ++ formatFixed32 f.stat_result.st_ctime

/-- ImageData.generate.  uuid.uuid5 is an external deterministic hash of
a namespace seed and a name; it is passed in explicitly as the function
uuid5, and the 128-bit session seed as a natural number. -/
def ImageData.generate (uuid5 : Nat → String → String) (seed : Nat) (f : ImageFile) : ImageData :=
  { name := f.name
    path_nf := f.path_nf
    st_mtime := f.stat_result.st_mtime
    pseudo_random_hash := uuid5 seed (identityToken f) }

/-- Lookup in a Python dict modelled as an association list. -/
def mapLookup (k : String) : List (String × ImageData) → Option ImageData
  | [] => none
  | (k1, v) :: t => if k1 = k then some v else mapLookup k t

/-- del on a Python dict modelled as an association list: drop the entry
with the given key (the maps built below never hold a key twice). -/
def mapErase (k : String) : List (String × ImageData) → List (String × ImageData)
  | [] => []
  | (k1, v) :: t => if k1 = k then t else (k1, v) :: mapErase k t

/-- FastOrderedSet: the positional list of records, the parallel sorted
key index (a SortedList, modelled by its underlying list), and the
path-to-record lookup dict.  The key extractor configured at construction
is passed to each operation as the kf argument. -/
structure FastOrderedSet (K : Type) where
  items : List ImageData
  keys : List K
  index_map : List (String × ImageData)
deriving DecidableEq, Repr

/-- FastOrderedSet.__init__ with no iterable. -/
def FastOrderedSet.empty (K : Type) : FastOrderedSet K :=
  { items := [], keys := [], index_map := [] }

/-- FastOrderedSet.add: skip when the path is already present; otherwise
insert at the bisect_left position of the extracted key (and record the
key), or, with no key extractor, at the random.randint(0, len(items))
draw, which is passed in as rnd. -/
def FastOrderedSet.add {K : Type} [LinearOrder K] (kf : Option (ImageData → K))
    (rnd : Nat) (x : ImageData) (s : FastOrderedSet K) : FastOrderedSet K :=
  if (mapLookup x.path_nf s.index_map).isSome then s
  else
    match kf with
    | none =>
      { items := insertAt (rnd % (s.items.length + 1)) x s.items
        keys := s.keys
        index_map := (x.path_nf, x) :: s.index_map }
    | some f =>
      { items := insertAt (bisectLeft s.keys (f x)) x s.items
        keys := insortLeft s.keys (f x)
        index_map := (x.path_nf, x) :: s.index_map }

/-- FastOrderedSet.update: add every element of a sequence in order.  It
is only used on sets that have a key extractor, where the randint draw of
keyless adds is dead, so a constant is passed for it. -/
def FastOrderedSet.update {K : Type} [LinearOrder K] (kf : Option (ImageData → K))
    (xs : List ImageData) (s : FastOrderedSet K) : FastOrderedSet K :=
  xs.foldl (fun s x => FastOrderedSet.add kf 0 x s) s

/-- FastOrderedSet.remove: a silent no-op when the path is absent from
index_map; otherwise delete the dict entry, remove the first list element
equal to x, and, when a key extractor is configured, remove the extracted
key from the SortedList.  none models an exception escaping (the source
raises from list.remove when x is not in the positional list, and from
SortedList.remove when the key is absent; a well-formed set never does
either). -/
def FastOrderedSet.remove {K : Type} [LinearOrder K] (kf : Option (ImageData → K))
    (x : ImageData) (s : FastOrderedSet K) : Option (FastOrderedSet K) :=
  if (mapLookup x.path_nf s.index_map).isNone then some s
  else if x ∈ s.items then
    match kf with
    | none =>
      some { items := s.items.erase x
             keys := s.keys
             index_map := mapErase x.path_nf s.index_map }
    | some f =>
      match sortedRemove s.keys (f x) with
      | some ks =>
        some { items := s.items.erase x
               keys := ks
               index_map := mapErase x.path_nf s.index_map }
      | none => none
  else none

/-- FastOrderedSet.clear. -/
def FastOrderedSet.clear {K : Type} (_s : FastOrderedSet K) : FastOrderedSet K :=
  { items := [], keys := [], index_map := [] }

/-- Python list.index restricted to its use in FastOrderedSet.index: the
position of the first element equal to x (only evaluated when x is a
member). -/
def listIndexOf (x : ImageData) : List ImageData → Nat
  | [] => 0
  | a :: t => if a = x then 0 else listIndexOf x t + 1

/-- FastOrderedSet.index: look the path up in index_map and return the
position of the stored record in the positional list; none models the
ValueError raised on a missing path (or on a record unexpectedly absent
from the positional list). -/
def FastOrderedSet.index {K : Type} (s : FastOrderedSet K) (value : String) : Option Nat :=
  match mapLookup value s.index_map with
  | some r => if r ∈ s.items then some (listIndexOf r s.items) else none
  | none => none

/-- FastOrderedSet.__getitem__ with an integer index; none models the
IndexError on an out-of-range position. -/
def FastOrderedSet.getItem {K : Type} (s : FastOrderedSet K) (index : Nat) : Option ImageData :=
  s.items.get? index

/-- FastOrderedSet.__len__. -/
def FastOrderedSet.size {K : Type} (s : FastOrderedSet K) : Nat :=
  s.items.length

/-- Consistency of the path lookup dict with the positional list: every
dict entry stores a member under its own path, every member is found
under its path, and neither structure holds a path twice.  Every set
reachable by add and remove from empty satisfies this. -/
def WfMapItems (m : List (String × ImageData)) (l : List ImageData) : Prop :=
  (∀ p r, mapLookup p m = some r → r ∈ l ∧ r.path_nf = p) ∧
  (∀ r, r ∈ l → mapLookup r.path_nf m = some r) ∧
  (l.map ImageData.path_nf).Nodup ∧
  (m.map Prod.fst).Nodup

/-- Path-structure well-formedness of a FastOrderedSet. -/
def FastOrderedSet.WfPath {K : Type} (s : FastOrderedSet K) : Prop :=
  WfMapItems s.index_map s.items

/-- Key-structure well-formedness of a FastOrderedSet with extractor f:
the key index lists exactly the extracted keys of the positional list,
and the positional list is sorted by extracted key. -/
def FastOrderedSet.WfKeys {K : Type} [LinearOrder K] (f : ImageData → K)
    (s : FastOrderedSet K) : Prop :=
  s.keys = s.items.map f ∧ s.items.Pairwise (fun a b => f a ≤ f b)

/-- One mutation of an ordered set: an add (carrying the randint draw
used only by extractor-less sets) or a remove. -/
inductive SetOp where
  | add (rnd : Nat) (x : ImageData)
  | remove (x : ImageData)
deriving DecidableEq, Repr

/-- Apply one SetOp (none propagates an exception). -/
def applyOp {K : Type} [LinearOrder K] (kf : Option (ImageData → K))
    (s : FastOrderedSet K) : SetOp → Option (FastOrderedSet K)
  | .add rnd x => some (FastOrderedSet.add kf rnd x s)
  | .remove x => FastOrderedSet.remove kf x s

/-- Apply a sequence of SetOps; a raised exception aborts the rest of the
sequence. -/
def applyOps {K : Type} [LinearOrder K] (kf : Option (ImageData → K)) :
    List SetOp → FastOrderedSet K → Option (FastOrderedSet K)
  | [], s => some s
  | op :: ops, s =>
    match applyOp kf s op with
    | some s1 => applyOps kf ops s1
    | none => none

/-- The three order names of the viewer. -/
inductive OrderName where
  | mtime
  | random
  | fname
deriving DecidableEq, Repr

/-- The two navigation axes. -/
inductive Axis where
  | vertical
  | horizontal
deriving DecidableEq, Repr

/-- Key extractor of mtimeOrderSet: newest first. -/
def mtimeKey : ImageData → Int := fun p => -1 * p.st_mtime

/-- Key extractor of randomOrderSet: the stable pseudo-random hash.
Python compares strings lexicographically by code point; that order is
modelled on the underlying character list (the Lean String order is the
same order but is not computable by the kernel). -/
def randomKeyFn : ImageData → List Char := fun p => p.pseudo_random_hash.data

/-- Key extractor of fnameOrderSet: the base name, under the same
lexicographic code-point order as randomKeyFn. -/
def fnameKey : ImageData → List Char := fun p => p.name.data

/-- The navigation-relevant state of ImageViewer: the three ordered sets,
the order bound to each axis, the current path, the loaded pixmap
(modelled by its source path) and the pending selected file of a folder
load. -/
structure ViewerState where
  mtimeOrderSet : FastOrderedSet Int
  randomOrderSet : FastOrderedSet (List Char)
  fnameOrderSet : FastOrderedSet (List Char)
  verticalOrder : OrderName
  horizontalOrder : OrderName
  currentPath : Option String
  originalPixmap : Option String
  selected_file_path : Option String
deriving DecidableEq, Repr

/-- The positional list of the set carrying a given order. -/
def ViewerState.orderItems (st : ViewerState) : OrderName → List ImageData
  | .mtime => st.mtimeOrderSet.items
  | .random => st.randomOrderSet.items
  | .fname => st.fnameOrderSet.items

/-- The path lookup dict of the set carrying a given order. -/
def ViewerState.orderMap (st : ViewerState) : OrderName → List (String × ImageData)
  | .mtime => st.mtimeOrderSet.index_map
  | .random => st.randomOrderSet.index_map
  | .fname => st.fnameOrderSet.index_map

/-- FastOrderedSet.index on the set carrying a given order. -/
def ViewerState.orderIndex (st : ViewerState) (o : OrderName) (value : String) : Option Nat :=
  match o with
  | .mtime => st.mtimeOrderSet.index value
  | .random => st.randomOrderSet.index value
  | .fname => st.fnameOrderSet.index value

/-- The order bound to an axis (the verticalOrderSet and
horizontalOrderSet references of the source). -/
def ViewerState.boundOrder (st : ViewerState) : Axis → OrderName
  | .vertical => st.verticalOrder
  | .horizontal => st.horizontalOrder

/-- ImageViewer.remove: drop a record from the three ordered sets; when
the working set became empty or the removed path was the displayed one,
reset the current path and cached pixmap; return immediately when the
working set is already empty.  none models an exception escaping one of
the three set removals. -/
def ViewerState.remove (st : ViewerState) (x : ImageData) : Option ViewerState :=
  if st.mtimeOrderSet.size = 0 then some st
  else
    match FastOrderedSet.remove (some mtimeKey) x st.mtimeOrderSet,
        FastOrderedSet.remove (some randomKeyFn) x st.randomOrderSet,
        FastOrderedSet.remove (some fnameKey) x st.fnameOrderSet with
    | some m, some r, some f =>
      if m.size = 0 ∨ st.currentPath = some x.path_nf then
        some { st with mtimeOrderSet := m, randomOrderSet := r, fnameOrderSet := f,
                       originalPixmap := none, currentPath := none }
      else
        some { st with mtimeOrderSet := m, randomOrderSet := r, fnameOrderSet := f }
    | _, _, _ => none

/-- ImageViewer.loadImageFromFile, abstracted over the external decoders:
the oracle loads decides whether the file at a path still yields a
displayable image.  On success the state records the new current path and
pixmap; on failure only the display widget is cleared, so the state is
unchanged.  The Bool is the Python return value (image or None). -/
def ViewerState.loadImageFromFile (st : ViewerState) (loads : String → Bool)
    (x : ImageData) : Bool × ViewerState :=
  if loads x.path_nf then
    (true, { st with currentPath := some x.path_nf, originalPixmap := some x.path_nf })
  else (false, st)

/-- Candidate position (index + 1) % size with Python integer
semantics. -/
def indexNextInc (index size : Nat) : Nat :=
  (((index : Int) + 1) % (size : Int)).toNat

/-- Candidate position (index - 1) % size with Python integer semantics
(the modulus of a negative value is nonnegative for a positive
divisor). -/
def indexNextDec (index size : Nat) : Nat :=
  (((index : Int) - 1) % (size : Int)).toNat

/-- The while loop shared by ImageViewer.horizontalNextImage and
ImageViewer.verticalPreviousImage: candidate (index + 1) mod size, stop
when loop mode is off and the candidate wrapped numerically below index,
otherwise try to load it, and on failure remove it from the three sets
and retry.  cp is the loop-local copy of currentPath taken before the
loop.  fuel bounds the recursion: every retry removes one element, so
size + 1 steps always suffice, and none on exhaustion (or an uncaught
exception) never occurs on well-formed states. -/
def navLoopInc (loads : String → Bool) (loop : Bool) (o : OrderName) (cp : String) :
    Nat → ViewerState → Option ViewerState
  | 0, _ => none
  | fuel + 1, st =>
    if (st.orderItems o).length = 0 then some st
    else
      match st.orderIndex o cp with
      | none => none
      | some index =>
        if loop = false ∧ indexNextInc index (st.orderItems o).length < index then some st
        else
          match (st.orderItems o).get? (indexNextInc index (st.orderItems o).length) with
          | none => none
          | some newItem =>
            match st.loadImageFromFile loads newItem with
            | (true, st1) => some st1
            | (false, _) =>
              match st.remove newItem with
              | some st1 => navLoopInc loads loop o cp fuel st1
              | none => none

/-- The while loop shared by ImageViewer.verticalNextImage and
ImageViewer.horizontalPreviousImage: candidate (index - 1) mod size, stop
when loop mode is off and the candidate wrapped numerically above
index. -/
def navLoopDec (loads : String → Bool) (loop : Bool) (o : OrderName) (cp : String) :
    Nat → ViewerState → Option ViewerState
  | 0, _ => none
  | fuel + 1, st =>
    if (st.orderItems o).length = 0 then some st
    else
      match st.orderIndex o cp with
      | none => none
      | some index =>
        if loop = false ∧ index < indexNextDec index (st.orderItems o).length then some st
        else
          match (st.orderItems o).get? (indexNextDec index (st.orderItems o).length) with
          | none => none
          | some newItem =>
            match st.loadImageFromFile loads newItem with
            | (true, st1) => some st1
            | (false, _) =>
              match st.remove newItem with
              | some st1 => navLoopDec loads loop o cp fuel st1
              | none => none

/-- ImageViewer.horizontalNextImage: nothing happens when the bound set
is empty or no current path is set; otherwise run the increment loop on
the set bound to the horizontal axis.  loop is the state of the
loopScroll toggle. -/
def ViewerState.horizontalNextImage (st : ViewerState) (loads : String → Bool)
    (loop : Bool) : Option ViewerState :=
  if (st.orderItems st.horizontalOrder).length = 0 then some st
  else
    match st.currentPath with
    | none => some st
    | some cp =>
      navLoopInc loads loop st.horizontalOrder cp
        ((st.orderItems st.horizontalOrder).length + 1) st

/-- ImageViewer.verticalNextImage: the next image along the vertical axis
advances by MINUS one modulo size (with the stop guard reversed), unlike
the horizontal axis. -/
def ViewerState.verticalNextImage (st : ViewerState) (loads : String → Bool)
    (loop : Bool) : Option ViewerState :=
  if (st.orderItems st.verticalOrder).length = 0 then some st
  else
    match st.currentPath with
    | none => some st
    | some cp =>
      navLoopDec loads loop st.verticalOrder cp
        ((st.orderItems st.verticalOrder).length + 1) st

/-- next(axis) of the specification, dispatching to the two source
functions. -/
def ViewerState.nextImage (st : ViewerState) (loads : String → Bool) (loop : Bool) :
    Axis → Option ViewerState
  | .vertical => st.verticalNextImage loads loop
  | .horizontal => st.horizontalNextImage loads loop

/-- The candidate index actually computed by one navigation step of the
source along an axis: plus one on the horizontal axis, minus one on the
vertical axis, both modulo size. -/
def axisNextIndex : Axis → Nat → Nat → Nat
  | .horizontal, index, size => indexNextInc index size
  | .vertical, index, size => indexNextDec index size

/-- The no-loop stopping guard of one navigation step of the source: stop
when the candidate wrapped numerically below the index (horizontal next)
or above it (vertical next). -/
def axisStopGuard : Axis → Nat → Nat → Prop
  | .horizontal, index, indexNext => indexNext < index
  | .vertical, index, indexNext => index < indexNext

/-- ImageViewer.handleNewImage: one discovery batch is added to the three
ordered sets; the first record of the batch is loaded when nothing was
displayed yet or a selected file is pending; the pending selection is
then consumed.  (All three sets are keyed, so no randint draw is
involved.) -/
def ViewerState.handleNewImage (st : ViewerState) (loads : String → Bool)
    (batch : List ImageData) : ViewerState :=
  let existing := st.mtimeOrderSet.size
  let st1 := { st with
    fnameOrderSet := FastOrderedSet.update (some fnameKey) batch st.fnameOrderSet
    mtimeOrderSet := FastOrderedSet.update (some mtimeKey) batch st.mtimeOrderSet
    randomOrderSet := FastOrderedSet.update (some randomKeyFn) batch st.randomOrderSet }
  let st2 :=
    match batch with
    | [] => st1
    | first :: _ =>
      if existing = 0 ∨ st.selected_file_path.isSome then (st1.loadImageFromFile loads first).2
      else st1
  { st2 with selected_file_path := none }

/-- The same-folder branch of ImageViewer.loadImagesFromFolder, entered
on a rescan of the already-loaded folder (reloadCurrentFolder for the
directory watcher): the three sets are NOT cleared, the previously
displayed file becomes the pending selection, and the current path and
pixmap are reset before the scan worker starts. -/
def ViewerState.rescanStart (st : ViewerState) : ViewerState :=
  { st with
    selected_file_path := st.currentPath
    currentPath := none
    originalPixmap := none }

/-- A rescan of the current folder: rescanStart followed by the stream of
discovery batches emitted by ImageLoaderWorker, each delivered to
handleNewImage (finishLoadingImages changes no set state). -/
def ViewerState.rescan (st : ViewerState) (loads : String → Bool)
    (batches : List (List ImageData)) : ViewerState :=
  batches.foldl (fun st batch => st.handleNewImage loads batch) st.rescanStart

/-- ImageViewer.toggled_order: the next order for an axis given the order
currently bound to it and the order bound to the other axis. -/
def toggled_order : OrderName → OrderName → OrderName
  | .mtime, other => if other = .random then .fname else .random
  | .random, other => if other = .fname then .mtime else .fname
  | .fname, other => if other = .mtime then .random else .mtime

/-- The fixed 3-cycle named by the specification: by-modified-time to
by-random-key to by-name and back.  Written from the specification, for
comparison with toggled_order. -/
def cycleNextOrder : OrderName → OrderName
  | .mtime => .random
  | .random => .fname
  | .fname => .mtime

/-- ImageViewer.onVScrollClicked: when the set bound to the vertical axis
is non-empty, rebind the vertical axis to the toggled order. -/
def ViewerState.onVScrollClicked (st : ViewerState) : ViewerState :=
  if (st.orderItems st.verticalOrder).length ≠ 0 then
    { st with verticalOrder := toggled_order st.verticalOrder st.horizontalOrder }
  else st

/-- ImageViewer.onHScrollClicked: when the set bound to the horizontal
axis is non-empty, rebind the horizontal axis to the toggled order. -/
def ViewerState.onHScrollClicked (st : ViewerState) : ViewerState :=
  if (st.orderItems st.horizontalOrder).length ≠ 0 then
    { st with horizontalOrder := toggled_order st.horizontalOrder st.verticalOrder }
  else st

/-- Cross-set well-formedness of the viewer state: each ordered set is
internally consistent, the three share one membership (equal lookup
dicts, positional lists that are permutations of each other). -/
def ViewerWf (st : ViewerState) : Prop :=
  st.mtimeOrderSet.WfPath ∧ st.randomOrderSet.WfPath ∧ st.fnameOrderSet.WfPath ∧
  st.mtimeOrderSet.WfKeys mtimeKey ∧ st.randomOrderSet.WfKeys randomKeyFn ∧
  st.fnameOrderSet.WfKeys fnameKey ∧
  st.randomOrderSet.index_map = st.mtimeOrderSet.index_map ∧
  st.fnameOrderSet.index_map = st.mtimeOrderSet.index_map ∧
  st.randomOrderSet.items.Perm st.mtimeOrderSet.items ∧
  st.fnameOrderSet.items.Perm st.mtimeOrderSet.items

/-- Two ordered sets over possibly different key types hold the same
working-set population: equal path lookup dicts and positional lists that
are permutations of each other. -/
def SameMembers {K1 K2 : Type} (s1 : FastOrderedSet K1) (s2 : FastOrderedSet K2) : Prop :=
  s1.index_map = s2.index_map ∧ s1.items.Perm s2.items

/-- A viewer state populated with one discovery batch xs, with the given
axis bindings and displayed path: the state reached after __init__ and a
single handleNewImage delivery, used for concrete scenarios. -/
def mkViewer (xs : List ImageData) (v h : OrderName) (cp : Option String) : ViewerState :=
  { mtimeOrderSet := FastOrderedSet.update (some mtimeKey) xs (FastOrderedSet.empty Int)
    randomOrderSet := FastOrderedSet.update (some randomKeyFn) xs (FastOrderedSet.empty (List Char))
    fnameOrderSet := FastOrderedSet.update (some fnameKey) xs (FastOrderedSet.empty (List Char))
    verticalOrder := v
    horizontalOrder := h
    currentPath := cp
    originalPixmap := cp
    selected_file_path := none }

/-- Concrete record used in scenarios. -/
def imgA : ImageData :=
  { name := "a.png", path_nf := "/p/a.png", st_mtime := 3, pseudo_random_hash := "h1" }

/-- Concrete record used in scenarios. -/
def imgB : ImageData :=
  { name := "b.png", path_nf := "/p/b.png", st_mtime := 2, pseudo_random_hash := "h2" }

/-- Concrete record used in scenarios. -/
def imgC : ImageData :=
  { name := "c.png", path_nf := "/p/c.png", st_mtime := 1, pseudo_random_hash := "h3" }

/-- A populated viewer showing the last image of the vertical (mtime)
order: mtime keys are -3, -2, -1, so the positional order is A, B, C and
the displayed record C sits at index 2. -/
def ceNavState : ViewerState :=
  mkViewer [imgA, imgB, imgC] OrderName.mtime OrderName.random (some imgC.path_nf)

/-- A populated viewer holding only imgA, about to be rescanned. -/
def ceRescanState : ViewerState :=
  mkViewer [imgA] OrderName.mtime OrderName.random (some imgA.path_nf)

/-- The by-mtime set reached from empty by the concrete operation
sequence add imgB, add imgA, remove imgB, add imgC (used by concrete
scenario witnesses). -/
def opsResultAC : FastOrderedSet Int :=
  { items := [imgA, imgC]
    keys := [-3, -1]
    index_map := [(imgC.path_nf, imgC), (imgA.path_nf, imgA)] }

/-! Helper lemmas about the list and dict primitives. -/

theorem insertAt_perm {α : Type} (n : Nat) (x : α) (l : List α) :
    (insertAt n x l).Perm (x :: l) := by
  induction l generalizing n with
  | nil => cases n <;> simp [insertAt]
  | cons a t ih =>
    cases n with
    | zero => simp [insertAt]
    | succ n =>
      simp only [insertAt]
      exact ((ih n).cons a).trans (List.Perm.swap x a t)

theorem length_insertAt {α : Type} (n : Nat) (x : α) (l : List α) :
    (insertAt n x l).length = l.length + 1 :=
  (insertAt_perm n x l).length_eq

theorem mem_insertAt {α : Type} (n : Nat) (x a : α) (l : List α) :
    a ∈ insertAt n x l ↔ a = x ∨ a ∈ l := by
  rw [(insertAt_perm n x l).mem_iff, List.mem_cons]

theorem map_insertAt {α β : Type} (g : α → β) (n : Nat) (x : α) (l : List α) :
    (insertAt n x l).map g = insertAt n (g x) (l.map g) := by
  induction l generalizing n with
  | nil => cases n <;> simp [insertAt]
  | cons a t ih =>
    cases n with
    | zero => simp [insertAt]
    | succ n => simp [insertAt, ih]

theorem insortLeft_eq {K : Type} [LinearOrder K] (l : List K) (x : K) :
    insortLeft l x = insertAt (bisectLeft l x) x l := by
  induction l with
  | nil => simp [insortLeft, bisectLeft, insertAt]
  | cons a t ih =>
    by_cases h : a < x
    · simp [insortLeft, bisectLeft, h, insertAt, ih]
    · simp [insortLeft, bisectLeft, h, insertAt]

theorem bisectLeft_le_length {K : Type} [LinearOrder K] (l : List K) (x : K) :
    bisectLeft l x ≤ l.length := by
  induction l with
  | nil => simp [bisectLeft]
  | cons a t ih =>
    by_cases h : a < x
    · simpa [bisectLeft, h] using ih
    · simp [bisectLeft, h]

theorem pairwise_insertAt_bisectLeft {α K : Type} [LinearOrder K] (f : α → K)
    (l : List α) (x : α) (hp : l.Pairwise (fun a b => f a ≤ f b)) :
    (insertAt (bisectLeft (l.map f) (f x)) x l).Pairwise (fun a b => f a ≤ f b) := by
  induction l with
  | nil => simp [bisectLeft, insertAt]
  | cons a t ih =>
    rw [List.pairwise_cons] at hp
    by_cases h : f a < f x
    · simp only [List.map_cons, bisectLeft, if_pos h, insertAt]
      refine List.Pairwise.cons ?_ (ih hp.2)
      intro b hb
      rcases (mem_insertAt _ _ _ _).mp hb with rfl | hbt
      · exact le_of_lt h
      · exact hp.1 b hbt
    · simp only [List.map_cons, bisectLeft, if_neg h, insertAt]
      refine List.Pairwise.cons ?_ (List.Pairwise.cons hp.1 hp.2)
      intro b hb
      rcases List.mem_cons.mp hb with rfl | hbt
      · exact le_of_not_lt h
      · exact le_trans (le_of_not_lt h) (hp.1 b hbt)

theorem sortedRemove_eq_erase {K : Type} [LinearOrder K] (l : List K) (x : K)
    (hs : l.Pairwise (fun a b : K => a ≤ b)) (hx : x ∈ l) :
    sortedRemove l x = some (l.erase x) := by
  induction l with
  | nil => cases hx
  | cons a t ih =>
    rw [List.pairwise_cons] at hs
    by_cases h : a < x
    · have hax : a ≠ x := ne_of_lt h
      have hxt : x ∈ t := by
        rcases List.mem_cons.mp hx with rfl | hxt
        · exact absurd rfl hax
        · exact hxt
      have hrec := ih hs.2 hxt
      simp only [sortedRemove, bisectLeft, if_pos h] at hrec ⊢
      simp only [List.get?_cons_succ, List.eraseIdx_cons_succ]
      rw [List.erase_cons_tail]
      · match hget : t.get? (bisectLeft t x) with
        | some y =>
          rw [hget] at hrec
          by_cases hyx : y = x
          · simp only [if_pos hyx] at hrec
            simp only [if_pos hyx]
            rw [Option.some_inj] at hrec ⊢
            rw [hrec]
          · simp only [if_neg hyx] at hrec
            cases hrec
        | none => rw [hget] at hrec; cases hrec
      · simp only [beq_iff_eq]
        exact fun hc => hax hc
    · have hax : a = x := by
        rcases List.mem_cons.mp hx with rfl | hxt
        · rfl
        · exact le_antisymm (hs.1 x hxt) (le_of_not_lt h)
      subst hax
      simp [sortedRemove, bisectLeft, if_neg h, List.erase_cons_head]

theorem listIndexOf_get {x : ImageData} {l : List ImageData} (hx : x ∈ l) :
    l.get? (listIndexOf x l) = some x := by
  induction l with
  | nil => cases hx
  | cons a t ih =>
    by_cases h : a = x
    · simp [listIndexOf, h]
    · have hxt : x ∈ t := by
        rcases List.mem_cons.mp hx with rfl | hxt
        · exact absurd rfl h
        · exact hxt
      simp only [listIndexOf, if_neg h, List.get?_cons_succ]
      exact ih hxt

theorem listIndexOf_lt_length {x : ImageData} {l : List ImageData} (hx : x ∈ l) :
    listIndexOf x l < l.length :=
  List.get?_eq_some.mp (listIndexOf_get hx) |>.choose

theorem mapLookup_cons_self (k : String) (v : ImageData) (m : List (String × ImageData)) :
    mapLookup k ((k, v) :: m) = some v := by
  simp [mapLookup]

theorem mapLookup_cons_ne {k k1 : String} (h : k1 ≠ k) (v : ImageData)
    (m : List (String × ImageData)) : mapLookup k ((k1, v) :: m) = mapLookup k m := by
  simp [mapLookup, h]

theorem mapLookup_isSome_iff (k : String) (m : List (String × ImageData)) :
    (mapLookup k m).isSome ↔ k ∈ m.map Prod.fst := by
  induction m with
  | nil => simp [mapLookup]
  | cons e t ih =>
    obtain ⟨k1, v⟩ := e
    by_cases h : k1 = k
    · subst h; simp [mapLookup]
    · simp [mapLookup, h, ih, Ne.symm h]

theorem mapErase_sublist (k : String) (m : List (String × ImageData)) :
    (mapErase k m).Sublist m := by
  induction m with
  | nil => simp [mapErase]
  | cons e t ih =>
    obtain ⟨k1, v⟩ := e
    by_cases h : k1 = k
    · simp only [mapErase, if_pos h]
      exact (List.sublist_cons_self _ _)
    · simp only [mapErase, if_neg h]
      exact ih.cons₂ _

theorem mapLookup_mapErase_self {k : String} {m : List (String × ImageData)}
    (hnd : (m.map Prod.fst).Nodup) : mapLookup k (mapErase k m) = none := by
  induction m with
  | nil => simp [mapErase, mapLookup]
  | cons e t ih =>
    obtain ⟨k1, v⟩ := e
    simp only [List.map_cons, List.nodup_cons] at hnd
    by_cases h : k1 = k
    · subst h
      simp only [mapErase, if_pos rfl]
      rw [← Option.not_isSome_iff_eq_none, mapLookup_isSome_iff]
      exact hnd.1
    · simp [mapErase, h, mapLookup, ih hnd.2]

theorem mapLookup_mapErase_ne {k k1 : String} (h : k1 ≠ k) (m : List (String × ImageData)) :
    mapLookup k1 (mapErase k m) = mapLookup k1 m := by
  induction m with
  | nil => simp [mapErase]
  | cons e t ih =>
    obtain ⟨k2, v⟩ := e
    by_cases h2 : k2 = k
    · simp only [mapErase, if_pos h2, mapLookup]
      rw [if_neg (fun hc : k2 = k1 => h (hc.symm.trans h2))]
    · simp only [mapErase, if_neg h2, mapLookup]
      by_cases h1 : k2 = k1
      · rw [if_pos h1, if_pos h1]
      · rw [if_neg h1, if_neg h1]
        exact ih

theorem mapErase_of_absent {k : String} {m : List (String × ImageData)}
    (h : mapLookup k m = none) : mapErase k m = m := by
  induction m with
  | nil => simp [mapErase]
  | cons e t ih =>
    obtain ⟨k1, v⟩ := e
    by_cases h1 : k1 = k
    · subst h1
      rw [mapLookup_cons_self] at h
      cases h
    · rw [mapLookup_cons_ne h1] at h
      simp [mapErase, h1, ih h]

/-! Well-formedness of FastOrderedSet under add and remove. -/

theorem wfMapItems_nil : WfMapItems [] [] := by
  refine ⟨?_, ?_, ?_, ?_⟩ <;> simp [mapLookup]

theorem wfMapItems_insert {m : List (String × ImageData)} {l : List ImageData}
    (x : ImageData) (hw : WfMapItems m l) (habs : mapLookup x.path_nf m = none)
    (n : Nat) : WfMapItems ((x.path_nf, x) :: m) (insertAt n x l) := by
  obtain ⟨w1, w2, w3, w4⟩ := hw
  have hpnot : x.path_nf ∉ m.map Prod.fst := by
    rw [← mapLookup_isSome_iff, habs]
    simp
  have hlnot : x.path_nf ∉ l.map ImageData.path_nf := by
    intro hmem
    obtain ⟨r, hrl, hrp⟩ := List.mem_map.mp hmem
    rw [← hrp] at habs
    rw [w2 r hrl] at habs
    cases habs
  refine ⟨?_, ?_, ?_, ?_⟩
  · intro q r hq
    by_cases hqp : x.path_nf = q
    · subst hqp
      rw [mapLookup_cons_self] at hq
      obtain rfl := Option.some_inj.mp hq
      exact ⟨(mem_insertAt n x x l).mpr (Or.inl rfl), rfl⟩
    · rw [mapLookup_cons_ne hqp] at hq
      obtain ⟨hrl, hrp⟩ := w1 q r hq
      exact ⟨(mem_insertAt n x r l).mpr (Or.inr hrl), hrp⟩
  · intro r hr
    rcases (mem_insertAt n x r l).mp hr with rfl | hrl
    · exact mapLookup_cons_self _ _ _
    · have hne : x.path_nf ≠ r.path_nf := by
        intro hc
        rw [hc] at habs
        rw [w2 r hrl] at habs
        cases habs
      rw [mapLookup_cons_ne hne]
      exact w2 r hrl
  · rw [map_insertAt]
    have hperm := insertAt_perm n x.path_nf (l.map ImageData.path_nf)
    rw [hperm.nodup_iff]
    exact List.nodup_cons.mpr ⟨hlnot, w3⟩
  · simp only [List.map_cons, List.nodup_cons]
    exact ⟨hpnot, w4⟩

theorem wfMapItems_erase {m : List (String × ImageData)} {l : List ImageData}
    {x : ImageData} (hw : WfMapItems m l) (hx : mapLookup x.path_nf m = some x) :
    WfMapItems (mapErase x.path_nf m) (l.erase x) := by
  obtain ⟨w1, w2, w3, w4⟩ := hw
  have hxl : x ∈ l := (w1 _ _ hx).1
  have hlnd : l.Nodup := w3.of_map
  have hinj : ∀ a ∈ l, ∀ b ∈ l, a.path_nf = b.path_nf → a = b := by
    intro a ha b hb hab
    exact List.inj_on_of_nodup_map w3 ha hb hab
  refine ⟨?_, ?_, ?_, ?_⟩
  · intro q r hq
    by_cases hqp : q = x.path_nf
    · subst hqp
      rw [mapLookup_mapErase_self w4] at hq
      cases hq
    · rw [mapLookup_mapErase_ne hqp] at hq
      obtain ⟨hrl, hrp⟩ := w1 q r hq
      have hrx : r ≠ x := by
        intro hc
        subst hc
        exact hqp hrp.symm
      exact ⟨(List.Nodup.mem_erase_iff hlnd).mpr ⟨hrx, hrl⟩, hrp⟩
  · intro r hr
    have hrl : r ∈ l := List.mem_of_mem_erase hr
    have hrx : r ≠ x := ((List.Nodup.mem_erase_iff hlnd).mp hr).1
    have hrp : r.path_nf ≠ x.path_nf := by
      intro hc
      exact hrx (hinj r hrl x hxl hc)
    rw [mapLookup_mapErase_ne hrp]
    exact w2 r hrl
  · exact ((l.erase_sublist x).map ImageData.path_nf).nodup w3
  · exact ((mapErase_sublist x.path_nf m).map Prod.fst).nodup w4

theorem map_erase_eq_of_sorted {K : Type} [LinearOrder K] (f : ImageData → K)
    {l : List ImageData} {x : ImageData}
    (hp : l.Pairwise (fun a b => f a ≤ f b)) (hx : x ∈ l) :
    (l.map f).erase (f x) = (l.erase x).map f := by
  have h1 : (l.map f).Perm (f x :: (l.map f).erase (f x)) :=
    List.perm_cons_erase (List.mem_map_of_mem f hx)
  have h2 : l.Perm (x :: l.erase x) := List.perm_cons_erase hx
  have h3 : (l.map f).Perm (f x :: (l.erase x).map f) := by
    simpa using h2.map f
  have hperm : ((l.map f).erase (f x)).Perm ((l.erase x).map f) :=
    (h1.symm.trans h3).cons_inv
  have hs1 : ((l.map f).erase (f x)).Pairwise (fun a b : K => a ≤ b) :=
    List.Pairwise.sublist ((l.map f).erase_sublist (f x)) (List.pairwise_map.mpr hp)
  have hs2 : ((l.erase x).map f).Pairwise (fun a b : K => a ≤ b) :=
    List.pairwise_map.mpr (List.Pairwise.sublist (l.erase_sublist x) hp)
  exact List.eq_of_perm_of_sorted hperm hs1 hs2

theorem FastOrderedSet.add_of_present {K : Type} [LinearOrder K]
    (kf : Option (ImageData → K)) (rnd : Nat) (x : ImageData) (s : FastOrderedSet K)
    (h : (mapLookup x.path_nf s.index_map).isSome) :
    FastOrderedSet.add kf rnd x s = s := by
  unfold FastOrderedSet.add
  rw [if_pos h]

theorem FastOrderedSet.wfPath_add {K : Type} [LinearOrder K]
    (kf : Option (ImageData → K)) (rnd : Nat) (x : ImageData) (s : FastOrderedSet K)
    (hw : s.WfPath) : (FastOrderedSet.add kf rnd x s).WfPath := by
  unfold FastOrderedSet.add
  by_cases h : (mapLookup x.path_nf s.index_map).isSome
  · rw [if_pos h]
    exact hw
  · have habs : mapLookup x.path_nf s.index_map = none :=
      Option.not_isSome_iff_eq_none.mp h
    rw [if_neg h]
    cases kf with
    | none => exact wfMapItems_insert x hw habs _
    | some f => exact wfMapItems_insert x hw habs _

theorem FastOrderedSet.wfKeys_add {K : Type} [LinearOrder K] (f : ImageData → K)
    (rnd : Nat) (x : ImageData) (s : FastOrderedSet K)
    (hk : s.WfKeys f) : (FastOrderedSet.add (some f) rnd x s).WfKeys f := by
  unfold FastOrderedSet.add
  by_cases h : (mapLookup x.path_nf s.index_map).isSome
  · rw [if_pos h]
    exact hk
  · rw [if_neg h]
    obtain ⟨hkeq, hsort⟩ := hk
    constructor
    · simp only
      rw [insortLeft_eq, map_insertAt, hkeq]
    · simp only
      rw [hkeq]
      exact pairwise_insertAt_bisectLeft f s.items x hsort

theorem FastOrderedSet.remove_of_absent {K : Type} [LinearOrder K]
    (kf : Option (ImageData → K)) (x : ImageData) (s : FastOrderedSet K)
    (h : mapLookup x.path_nf s.index_map = none) :
    FastOrderedSet.remove kf x s = some s := by
  unfold FastOrderedSet.remove
  rw [if_pos (by rw [h]; rfl)]

theorem FastOrderedSet.remove_eq_of_lookup {K : Type} [LinearOrder K] (f : ImageData → K)
    (x : ImageData) (s : FastOrderedSet K) (hw : s.WfPath) (hk : s.WfKeys f)
    (hx : mapLookup x.path_nf s.index_map = some x) :
    FastOrderedSet.remove (some f) x s =
      some { items := s.items.erase x, keys := s.keys.erase (f x),
             index_map := mapErase x.path_nf s.index_map } := by
  have hmem : x ∈ s.items := (hw.1 _ _ hx).1
  have hkey : f x ∈ s.keys := by
    rw [hk.1]
    exact List.mem_map_of_mem f hmem
  have hsorted : s.keys.Pairwise (fun a b : K => a ≤ b) := by
    rw [hk.1]
    exact List.pairwise_map.mpr hk.2
  unfold FastOrderedSet.remove
  rw [if_neg (by rw [hx]; simp), if_pos hmem]
  show (match sortedRemove s.keys (f x) with
      | some ks =>
        some { items := s.items.erase x, keys := ks,
               index_map := mapErase x.path_nf s.index_map }
      | none => none : Option (FastOrderedSet K)) =
    some { items := s.items.erase x, keys := s.keys.erase (f x),
           index_map := mapErase x.path_nf s.index_map }
  rw [sortedRemove_eq_erase s.keys (f x) hsorted hkey]

theorem FastOrderedSet.remove_mismatch {K : Type} [LinearOrder K]
    (kf : Option (ImageData → K)) (x r : ImageData) (s : FastOrderedSet K)
    (hw : s.WfPath) (hx : mapLookup x.path_nf s.index_map = some r) (hne : r ≠ x) :
    FastOrderedSet.remove kf x s = none := by
  have hnm : x ∉ s.items := by
    intro hmem
    have := hw.2.1 x hmem
    rw [hx] at this
    exact hne (Option.some_inj.mp this)
  unfold FastOrderedSet.remove
  rw [if_neg (by rw [hx]; simp)]
  rw [if_neg hnm]

theorem FastOrderedSet.remove_none_eq_of_lookup {K : Type} [LinearOrder K]
    (x : ImageData) (s : FastOrderedSet K) (hw : s.WfPath)
    (hx : mapLookup x.path_nf s.index_map = some x) :
    FastOrderedSet.remove (none : Option (ImageData → K)) x s =
      some { items := s.items.erase x, keys := s.keys,
             index_map := mapErase x.path_nf s.index_map } := by
  have hmem : x ∈ s.items := (hw.1 _ _ hx).1
  unfold FastOrderedSet.remove
  rw [if_neg (by rw [hx]; simp), if_pos hmem]

theorem FastOrderedSet.wfPath_remove {K : Type} [LinearOrder K]
    (kf : Option (ImageData → K)) (x : ImageData) (s t : FastOrderedSet K)
    (hw : s.WfPath) (hks : ∀ f, kf = some f → s.WfKeys f)
    (ht : FastOrderedSet.remove kf x s = some t) : t.WfPath := by
  match hl : mapLookup x.path_nf s.index_map with
  | none =>
    rw [FastOrderedSet.remove_of_absent kf x s hl] at ht
    obtain rfl := Option.some_inj.mp ht
    exact hw
  | some r =>
    by_cases hr : r = x
    · subst hr
      cases kf with
      | none =>
        rw [FastOrderedSet.remove_none_eq_of_lookup r s hw hl] at ht
        obtain rfl := Option.some_inj.mp ht
        exact wfMapItems_erase hw hl
      | some f =>
        rw [FastOrderedSet.remove_eq_of_lookup f r s hw (hks f rfl) hl] at ht
        obtain rfl := Option.some_inj.mp ht
        exact wfMapItems_erase hw hl
    · rw [FastOrderedSet.remove_mismatch kf x r s hw hl hr] at ht
      cases ht

theorem FastOrderedSet.wfKeys_remove {K : Type} [LinearOrder K] (f : ImageData → K)
    (x : ImageData) (s t : FastOrderedSet K) (hw : s.WfPath) (hk : s.WfKeys f)
    (ht : FastOrderedSet.remove (some f) x s = some t) : t.WfKeys f := by
  match hl : mapLookup x.path_nf s.index_map with
  | none =>
    rw [FastOrderedSet.remove_of_absent (some f) x s hl] at ht
    obtain rfl := Option.some_inj.mp ht
    exact hk
  | some r =>
    by_cases hr : r = x
    · subst hr
      rw [FastOrderedSet.remove_eq_of_lookup f r s hw hk hl] at ht
      obtain rfl := Option.some_inj.mp ht
      have hmem : r ∈ s.items := (hw.1 _ _ hl).1
      constructor
      · show s.keys.erase (f r) = (s.items.erase r).map f
        rw [hk.1, map_erase_eq_of_sorted f hk.2 hmem]
      · exact List.Pairwise.sublist (s.items.erase_sublist r) hk.2
    · rw [FastOrderedSet.remove_mismatch (some f) x r s hw hl hr] at ht
      cases ht

/-! Membership and parity across ordered sets driven by identical
operation sequences. -/

theorem wfMapItems_mem_iff {m : List (String × ImageData)} {l : List ImageData}
    (hw : WfMapItems m l) (p : String) :
    (mapLookup p m).isSome ↔ ∃ x, x ∈ l ∧ x.path_nf = p := by
  constructor
  · intro h
    match hl : mapLookup p m with
    | some r => exact ⟨r, (hw.1 p r hl).1, (hw.1 p r hl).2⟩
    | none => rw [hl] at h; cases h
  · rintro ⟨x, hx, rfl⟩
    rw [hw.2.1 x hx]
    rfl

theorem add_sameMembers {K1 K2 : Type} [LinearOrder K1] [LinearOrder K2]
    (f1 : ImageData → K1) (f2 : ImageData → K2) (rnd : Nat) (x : ImageData)
    (s1 : FastOrderedSet K1) (s2 : FastOrderedSet K2) (hsm : SameMembers s1 s2) :
    SameMembers (FastOrderedSet.add (some f1) rnd x s1)
      (FastOrderedSet.add (some f2) rnd x s2) := by
  obtain ⟨hmap, hperm⟩ := hsm
  by_cases h : (mapLookup x.path_nf s1.index_map).isSome
  · rw [FastOrderedSet.add_of_present _ _ _ _ h,
      FastOrderedSet.add_of_present _ _ _ _ (by rw [← hmap]; exact h)]
    exact ⟨hmap, hperm⟩
  · unfold FastOrderedSet.add
    rw [if_neg h, if_neg (by rw [← hmap]; exact h)]
    constructor
    · simp only
      rw [hmap]
    · simp only
      exact (insertAt_perm _ x s1.items).trans
        ((hperm.cons x).trans (insertAt_perm _ x s2.items).symm)

theorem remove_sameMembers {K1 K2 : Type} [LinearOrder K1] [LinearOrder K2]
    (f1 : ImageData → K1) (f2 : ImageData → K2) (x : ImageData)
    (s1 : FastOrderedSet K1) (s2 : FastOrderedSet K2)
    (hw1 : s1.WfPath) (hk1 : s1.WfKeys f1) (hw2 : s2.WfPath) (hk2 : s2.WfKeys f2)
    (hsm : SameMembers s1 s2) (t1 : FastOrderedSet K1)
    (ht1 : FastOrderedSet.remove (some f1) x s1 = some t1) :
    ∃ t2, FastOrderedSet.remove (some f2) x s2 = some t2 ∧ SameMembers t1 t2 := by
  obtain ⟨hmap, hperm⟩ := hsm
  match hl : mapLookup x.path_nf s1.index_map with
  | none =>
    rw [FastOrderedSet.remove_of_absent _ x s1 hl] at ht1
    obtain rfl := Option.some_inj.mp ht1
    refine ⟨s2, FastOrderedSet.remove_of_absent _ x s2 (by rw [← hmap]; exact hl), hmap, hperm⟩
  | some r =>
    by_cases hr : r = x
    · subst hr
      rw [FastOrderedSet.remove_eq_of_lookup f1 r s1 hw1 hk1 hl] at ht1
      obtain rfl := Option.some_inj.mp ht1
      refine ⟨_, FastOrderedSet.remove_eq_of_lookup f2 r s2 hw2 hk2 (by rw [← hmap]; exact hl), ?_, ?_⟩
      · simp only
        rw [hmap]
      · exact hperm.erase r
    · rw [FastOrderedSet.remove_mismatch _ x r s1 hw1 hl hr] at ht1
      cases ht1

theorem applyOps_wf {K : Type} [LinearOrder K] (f : ImageData → K) :
    ∀ (ops : List SetOp) (s : FastOrderedSet K), s.WfPath → s.WfKeys f →
      ∀ t, applyOps (some f) ops s = some t → t.WfPath ∧ t.WfKeys f := by
  intro ops
  induction ops with
  | nil =>
    intro s hw hk t ht
    obtain rfl := Option.some_inj.mp ht
    exact ⟨hw, hk⟩
  | cons op ops ih =>
    intro s hw hk t ht
    simp only [applyOps] at ht
    cases op with
    | add rnd x =>
      simp only [applyOp] at ht
      exact ih _ (FastOrderedSet.wfPath_add _ rnd x s hw)
        (FastOrderedSet.wfKeys_add f rnd x s hk) t ht
    | remove x =>
      simp only [applyOp] at ht
      match hop : FastOrderedSet.remove (some f) x s with
      | some s1 =>
        rw [hop] at ht
        exact ih s1 (FastOrderedSet.wfPath_remove _ x s s1 hw (fun g hg => by
            obtain rfl := Option.some_inj.mp hg
            exact hk) hop)
          (FastOrderedSet.wfKeys_remove f x s s1 hw hk hop) t ht
      | none =>
        rw [hop] at ht
        cases ht

theorem applyOps_wfPath_keyless {K : Type} [LinearOrder K] :
    ∀ (ops : List SetOp) (s : FastOrderedSet K), s.WfPath →
      ∀ t, applyOps (none : Option (ImageData → K)) ops s = some t → t.WfPath := by
  intro ops
  induction ops with
  | nil =>
    intro s hw t ht
    obtain rfl := Option.some_inj.mp ht
    exact hw
  | cons op ops ih =>
    intro s hw t ht
    simp only [applyOps] at ht
    cases op with
    | add rnd x =>
      simp only [applyOp] at ht
      exact ih _ (FastOrderedSet.wfPath_add _ rnd x s hw) t ht
    | remove x =>
      simp only [applyOp] at ht
      match hop : FastOrderedSet.remove (none : Option (ImageData → K)) x s with
      | some s1 =>
        rw [hop] at ht
        exact ih s1 (FastOrderedSet.wfPath_remove _ x s s1 hw
          (fun g hg => by cases hg) hop) t ht
      | none =>
        rw [hop] at ht
        cases ht

theorem applyOps_parity {K1 K2 : Type} [LinearOrder K1] [LinearOrder K2]
    (f1 : ImageData → K1) (f2 : ImageData → K2) :
    ∀ (ops : List SetOp) (s1 : FastOrderedSet K1) (s2 : FastOrderedSet K2),
      s1.WfPath → s1.WfKeys f1 → s2.WfPath → s2.WfKeys f2 → SameMembers s1 s2 →
      ∀ t1, applyOps (some f1) ops s1 = some t1 →
      ∃ t2, applyOps (some f2) ops s2 = some t2 ∧ SameMembers t1 t2 := by
  intro ops
  induction ops with
  | nil =>
    intro s1 s2 hw1 hk1 hw2 hk2 hsm t1 ht1
    obtain rfl := Option.some_inj.mp ht1
    exact ⟨s2, rfl, hsm⟩
  | cons op ops ih =>
    intro s1 s2 hw1 hk1 hw2 hk2 hsm t1 ht1
    simp only [applyOps] at ht1 ⊢
    cases op with
    | add rnd x =>
      simp only [applyOp] at ht1 ⊢
      exact ih _ _ (FastOrderedSet.wfPath_add _ rnd x s1 hw1)
        (FastOrderedSet.wfKeys_add f1 rnd x s1 hk1)
        (FastOrderedSet.wfPath_add _ rnd x s2 hw2)
        (FastOrderedSet.wfKeys_add f2 rnd x s2 hk2)
        (add_sameMembers f1 f2 rnd x s1 s2 hsm) t1 ht1
    | remove x =>
      simp only [applyOp] at ht1 ⊢
      match hop : FastOrderedSet.remove (some f1) x s1 with
      | some s1n =>
        rw [hop] at ht1
        obtain ⟨s2n, hop2, hsmn⟩ :=
          remove_sameMembers f1 f2 x s1 s2 hw1 hk1 hw2 hk2 hsm s1n hop
        rw [hop2]
        exact ih s1n s2n
          (FastOrderedSet.wfPath_remove _ x s1 s1n hw1 (fun g hg => by
            obtain rfl := Option.some_inj.mp hg
            exact hk1) hop)
          (FastOrderedSet.wfKeys_remove f1 x s1 s1n hw1 hk1 hop)
          (FastOrderedSet.wfPath_remove _ x s2 s2n hw2 (fun g hg => by
            obtain rfl := Option.some_inj.mp hg
            exact hk2) hop2)
          (FastOrderedSet.wfKeys_remove f2 x s2 s2n hw2 hk2 hop2)
          hsmn t1 ht1
      | none =>
        rw [hop] at ht1
        cases ht1

theorem empty_wfPath {K : Type} : (FastOrderedSet.empty K).WfPath :=
  wfMapItems_nil

theorem empty_wfKeys {K : Type} [LinearOrder K] (f : ImageData → K) :
    (FastOrderedSet.empty K).WfKeys f := by
  constructor <;> simp [FastOrderedSet.empty]

theorem empty_sameMembers {K1 K2 : Type} :
    SameMembers (FastOrderedSet.empty K1) (FastOrderedSet.empty K2) := by
  constructor <;> simp [FastOrderedSet.empty]

theorem update_wfPath {K : Type} [LinearOrder K] (kf : Option (ImageData → K)) :
    ∀ (xs : List ImageData) (s : FastOrderedSet K), s.WfPath →
      (FastOrderedSet.update kf xs s).WfPath := by
  intro xs
  induction xs with
  | nil =>
    intro s hw
    exact hw
  | cons x xs ih =>
    intro s hw
    exact ih _ (FastOrderedSet.wfPath_add kf 0 x s hw)

theorem update_wfKeys {K : Type} [LinearOrder K] (f : ImageData → K) :
    ∀ (xs : List ImageData) (s : FastOrderedSet K), s.WfKeys f →
      (FastOrderedSet.update (some f) xs s).WfKeys f := by
  intro xs
  induction xs with
  | nil =>
    intro s hk
    exact hk
  | cons x xs ih =>
    intro s hk
    exact ih _ (FastOrderedSet.wfKeys_add f 0 x s hk)

theorem update_sameMembers {K1 K2 : Type} [LinearOrder K1] [LinearOrder K2]
    (f1 : ImageData → K1) (f2 : ImageData → K2) :
    ∀ (xs : List ImageData) (s1 : FastOrderedSet K1) (s2 : FastOrderedSet K2),
      SameMembers s1 s2 →
      SameMembers (FastOrderedSet.update (some f1) xs s1)
        (FastOrderedSet.update (some f2) xs s2) := by
  intro xs
  induction xs with
  | nil =>
    intro s1 s2 hsm
    exact hsm
  | cons x xs ih =>
    intro s1 s2 hsm
    exact ih _ _ (add_sameMembers f1 f2 0 x s1 s2 hsm)

/-- C3: for every Ordered Identity Set configured with one of the three
key extractors (by-mtime with key minus st_mtime, by-name with key name,
by-random-key with key pseudo_random_hash) and every sequence of add and
remove operations from the empty set, the positional sequence stays
sorted: the extracted keys are non-decreasing along positions.  For the
extractor-less set the lookup dict and the positional list always agree
on membership although positions are unconstrained. -/
theorem claim_C3_sorted_invariant (ops : List SetOp) :
    (∀ s, applyOps (some mtimeKey) ops (FastOrderedSet.empty Int) = some s →
      s.items.Pairwise (fun a b => mtimeKey a ≤ mtimeKey b)) ∧
    (∀ s, applyOps (some fnameKey) ops (FastOrderedSet.empty (List Char)) = some s →
      s.items.Pairwise (fun a b => fnameKey a ≤ fnameKey b)) ∧
    (∀ s, applyOps (some randomKeyFn) ops (FastOrderedSet.empty (List Char)) = some s →
      s.items.Pairwise (fun a b => randomKeyFn a ≤ randomKeyFn b)) ∧
    (∀ s, applyOps (none : Option (ImageData → Int)) ops (FastOrderedSet.empty Int) = some s →
      ∀ p, (mapLookup p s.index_map).isSome ↔ ∃ x, x ∈ s.items ∧ x.path_nf = p) := by
  refine ⟨?_, ?_, ?_, ?_⟩
  · intro s hs
    exact (applyOps_wf mtimeKey ops _ empty_wfPath (empty_wfKeys _) s hs).2.2
  · intro s hs
    exact (applyOps_wf fnameKey ops _ empty_wfPath (empty_wfKeys _) s hs).2.2
  · intro s hs
    exact (applyOps_wf randomKeyFn ops _ empty_wfPath (empty_wfKeys _) s hs).2.2
  · intro s hs
    exact wfMapItems_mem_iff (applyOps_wfPath_keyless ops _ empty_wfPath s hs)

/-- Witness for C3 at a concrete operation sequence. -/
theorem claim_C3_witness :
    opsResultAC.items.Pairwise (fun a b => mtimeKey a ≤ mtimeKey b) :=
  (claim_C3_sorted_invariant
    [SetOp.add 0 imgB, SetOp.add 1 imgA, SetOp.remove imgB, SetOp.add 2 imgC]).1
    opsResultAC (by decide)

/-- C4: every sequence of add and remove operations applied identically
to the three keyed Ordered Identity Sets keeps them in lockstep: if the
by-mtime set completes the sequence, so do the by-random-key and by-name
sets, the three sizes are equal, and a path is present in one lookup dict
exactly when it is present in the others.  (This holds for the arbitrary
sequence ops, hence for every prefix, i.e. after every operation.) -/
theorem claim_C4_membership_parity (ops : List SetOp) (s1 : FastOrderedSet Int)
    (h1 : applyOps (some mtimeKey) ops (FastOrderedSet.empty Int) = some s1) :
    ∃ s2 s3, applyOps (some randomKeyFn) ops (FastOrderedSet.empty (List Char)) = some s2 ∧
      applyOps (some fnameKey) ops (FastOrderedSet.empty (List Char)) = some s3 ∧
      s1.size = s2.size ∧ s1.size = s3.size ∧
      (∀ p, (mapLookup p s1.index_map).isSome ↔ (mapLookup p s2.index_map).isSome) ∧
      (∀ p, (mapLookup p s1.index_map).isSome ↔ (mapLookup p s3.index_map).isSome) := by
  obtain ⟨s2, h2, hms2, hps2⟩ :=
    applyOps_parity mtimeKey randomKeyFn ops _ _ empty_wfPath (empty_wfKeys _)
      empty_wfPath (empty_wfKeys _) empty_sameMembers s1 h1
  obtain ⟨s3, h3, hms3, hps3⟩ :=
    applyOps_parity mtimeKey fnameKey ops _ _ empty_wfPath (empty_wfKeys _)
      empty_wfPath (empty_wfKeys _) empty_sameMembers s1 h1
  refine ⟨s2, s3, h2, h3, hps2.length_eq, hps3.length_eq, ?_, ?_⟩
  · intro p
    rw [hms2]
  · intro p
    rw [hms3]

/-- Witness for C4 at a concrete operation sequence. -/
theorem claim_C4_witness :
    ∃ s2 s3,
      applyOps (some randomKeyFn)
        [SetOp.add 0 imgB, SetOp.add 1 imgA, SetOp.remove imgB, SetOp.add 2 imgC]
        (FastOrderedSet.empty (List Char)) = some s2 ∧
      applyOps (some fnameKey)
        [SetOp.add 0 imgB, SetOp.add 1 imgA, SetOp.remove imgB, SetOp.add 2 imgC]
        (FastOrderedSet.empty (List Char)) = some s3 ∧
      opsResultAC.size = s2.size ∧ opsResultAC.size = s3.size ∧
      (∀ p, (mapLookup p opsResultAC.index_map).isSome ↔ (mapLookup p s2.index_map).isSome) ∧
      (∀ p, (mapLookup p opsResultAC.index_map).isSome ↔ (mapLookup p s3.index_map).isSome) :=
  claim_C4_membership_parity
    [SetOp.add 0 imgB, SetOp.add 1 imgA, SetOp.remove imgB, SetOp.add 2 imgC]
    opsResultAC (by decide)

/-- C6: for every well-formed Ordered Identity Set and every member
record x stored in it, looking up the position of its path and reading
the element at that position returns x itself. -/
theorem claim_C6_round_trip {K : Type} (s : FastOrderedSet K) (x : ImageData)
    (hw : s.WfPath) (hx : mapLookup x.path_nf s.index_map = some x) :
    (s.index x.path_nf).bind s.getItem = some x := by
  have hmem : x ∈ s.items := (hw.1 _ _ hx).1
  unfold FastOrderedSet.index
  rw [hx]
  show ((if x ∈ s.items then some (listIndexOf x s.items) else none).bind s.getItem) = some x
  rw [if_pos hmem]
  show s.items.get? (listIndexOf x s.items) = some x
  exact listIndexOf_get hmem

/-- Witness for C6 on a concrete two-element set. -/
theorem claim_C6_witness :
    ((FastOrderedSet.update (some mtimeKey) [imgA, imgB]
        (FastOrderedSet.empty Int)).index imgB.path_nf).bind
      (FastOrderedSet.update (some mtimeKey) [imgA, imgB]
        (FastOrderedSet.empty Int)).getItem = some imgB :=
  claim_C6_round_trip _ imgB
    (update_wfPath (some mtimeKey) [imgA, imgB] _ empty_wfPath) (by decide)

/-- C7: remove on a well-formed keyed Ordered Identity Set is idempotent:
removing an absent path is a silent no-op, removing twice equals removing
once, and removing a stored record deletes it consistently from the
positional list, the key index and the lookup dict (its path no longer
resolves and the record is gone from the positional list). -/
theorem claim_C7_idempotent_remove {K : Type} [LinearOrder K] (f : ImageData → K)
    (x : ImageData) (s : FastOrderedSet K) (hw : s.WfPath) (hk : s.WfKeys f) :
    (mapLookup x.path_nf s.index_map = none → FastOrderedSet.remove (some f) x s = some s) ∧
    (FastOrderedSet.remove (some f) x s).bind (FastOrderedSet.remove (some f) x) =
      FastOrderedSet.remove (some f) x s ∧
    (mapLookup x.path_nf s.index_map = some x →
      FastOrderedSet.remove (some f) x s =
        some { items := s.items.erase x, keys := s.keys.erase (f x),
               index_map := mapErase x.path_nf s.index_map } ∧
      mapLookup x.path_nf (mapErase x.path_nf s.index_map) = none ∧
      x ∉ s.items.erase x) := by
  have hnd : s.items.Nodup := hw.2.2.1.of_map
  refine ⟨fun h => FastOrderedSet.remove_of_absent _ x s h, ?_, ?_⟩
  · match hl : mapLookup x.path_nf s.index_map with
    | none =>
      rw [FastOrderedSet.remove_of_absent _ x s hl]
      show FastOrderedSet.remove (some f) x s = some s
      exact FastOrderedSet.remove_of_absent _ x s hl
    | some r =>
      by_cases hr : r = x
      · subst hr
        rw [FastOrderedSet.remove_eq_of_lookup f r s hw hk hl]
        show FastOrderedSet.remove (some f) r _ = _
        exact FastOrderedSet.remove_of_absent _ r _
          (mapLookup_mapErase_self hw.2.2.2)
      · rw [FastOrderedSet.remove_mismatch _ x r s hw hl hr]
        rfl
  · intro hx
    refine ⟨FastOrderedSet.remove_eq_of_lookup f x s hw hk hx,
      mapLookup_mapErase_self hw.2.2.2, ?_⟩
    intro hmem
    exact ((List.Nodup.mem_erase_iff hnd).mp hmem).1 rfl

/-- Witness for C7 on a concrete two-element set. -/
theorem claim_C7_witness :
    (FastOrderedSet.remove (some mtimeKey) imgA
        (FastOrderedSet.update (some mtimeKey) [imgA, imgB]
          (FastOrderedSet.empty Int))).bind
      (FastOrderedSet.remove (some mtimeKey) imgA) =
    FastOrderedSet.remove (some mtimeKey) imgA
      (FastOrderedSet.update (some mtimeKey) [imgA, imgB]
        (FastOrderedSet.empty Int)) :=
  (claim_C7_idempotent_remove mtimeKey imgA _
    (update_wfPath (some mtimeKey) [imgA, imgB] _ empty_wfPath)
    (update_wfKeys mtimeKey [imgA, imgB] _ (empty_wfKeys _))).2.1

/-- C8: the stable pseudo-random key generator is deterministic and
depends only on the session seed and the identity token: any two stat
results yielding the same identity token (inode when positive, otherwise
name plus creation time) produce the identical pseudo_random_hash under
the same seed, whatever their paths or modification times are. -/
theorem claim_C8_deterministic_key (uuid5 : Nat → String → String) (seed : Nat)
    (f1 f2 : ImageFile) (h : identityToken f1 = identityToken f2) :
    (ImageData.generate uuid5 seed f1).pseudo_random_hash =
      (ImageData.generate uuid5 seed f2).pseudo_random_hash := by
  unfold ImageData.generate
  rw [h]

/-- Witness for C8: two files on the same inode with different paths,
names and timestamps derive the same key. -/
theorem claim_C8_witness :
    ({ name := "a.png", path_nf := "/p/a.png",
       stat_result := { st_ino := 42, st_ctime := 10, st_mtime := 3 } } : ImageFile) ≠
      ({ name := "b.png", path_nf := "/q/b.png",
         stat_result := { st_ino := 42, st_ctime := 11, st_mtime := 7 } } : ImageFile) ∧
    (ImageData.generate (fun s t => toString s ++ ":" ++ t) 9
        { name := "a.png", path_nf := "/p/a.png",
          stat_result := { st_ino := 42, st_ctime := 10, st_mtime := 3 } }).pseudo_random_hash =
      (ImageData.generate (fun s t => toString s ++ ":" ++ t) 9
        { name := "b.png", path_nf := "/q/b.png",
          stat_result := { st_ino := 42, st_ctime := 11, st_mtime := 7 } }).pseudo_random_hash :=
  ⟨by decide, claim_C8_deterministic_key (fun s t => toString s ++ ":" ++ t) 9 _ _ (by decide)⟩

/-- C9: toggling an axis moves its binding to the next order in the
fixed 3-cycle mtime, random, fname, skipping past the value bound to the
other axis; the result is never the other axis's order and never the
toggled axis's previous order.  The click handlers apply exactly this
policy to the axis binding when the bound set is non-empty. -/
theorem claim_C9_toggle_cycle :
    (∀ c o, toggled_order c o ≠ o ∧ toggled_order c o ≠ c ∧
      toggled_order c o =
        (if cycleNextOrder c = o then cycleNextOrder (cycleNextOrder c)
         else cycleNextOrder c)) ∧
    (∀ st : ViewerState, (st.orderItems st.verticalOrder).length ≠ 0 →
      st.onVScrollClicked.verticalOrder =
        toggled_order st.verticalOrder st.horizontalOrder) ∧
    (∀ st : ViewerState, (st.orderItems st.horizontalOrder).length ≠ 0 →
      st.onHScrollClicked.horizontalOrder =
        toggled_order st.horizontalOrder st.verticalOrder) := by
  refine ⟨?_, ?_, ?_⟩
  · intro c o
    cases c <;> cases o <;> simp [toggled_order, cycleNextOrder]
  · intro st h
    unfold ViewerState.onVScrollClicked
    rw [if_pos h]
  · intro st h
    unfold ViewerState.onHScrollClicked
    rw [if_pos h]

/-- Witness for C9: a toggle of the vertical axis on a populated viewer. -/
theorem claim_C9_witness :
    ceNavState.onVScrollClicked.verticalOrder =
      toggled_order ceNavState.verticalOrder ceNavState.horizontalOrder :=
  claim_C9_toggle_cycle.2.1 ceNavState (by decide)

/-- C10: after ImageViewer.remove completes on a non-empty working set,
the current position never refers to the removed record: whenever the
removed path was the displayed one, or the working set became empty, both
the current path and the cached pixmap are reset to none; and remove on
an already-empty working set is a complete no-op. -/
theorem claim_C10_remove_resets_current (st : ViewerState) (x : ImageData) :
    (st.mtimeOrderSet.size = 0 → st.remove x = some st) ∧
    (∀ st1, st.remove x = some st1 → st.mtimeOrderSet.size ≠ 0 →
      st1.currentPath ≠ some x.path_nf ∧
      ((st.currentPath = some x.path_nf ∨ st1.mtimeOrderSet.size = 0) →
        st1.currentPath = none ∧ st1.originalPixmap = none)) := by
  constructor
  · intro h
    unfold ViewerState.remove
    rw [if_pos h]
  · intro st1 h1 hne
    unfold ViewerState.remove at h1
    rw [if_neg hne] at h1
    split at h1
    · split at h1
      · obtain rfl := Option.some_inj.mp h1
        exact ⟨by simp, fun _ => ⟨rfl, rfl⟩⟩
      · obtain rfl := Option.some_inj.mp h1
        rename_i hc
        push_neg at hc
        exact ⟨hc.2, fun hor =>
          hor.elim (fun hcur => absurd hcur hc.2) (fun hemp => absurd hemp hc.1)⟩
    · exact Option.noConfusion h1

/-- Witness for C10: removing the displayed record imgC from the
populated viewer resets the current path and pixmap. -/
theorem claim_C10_witness :
    ∀ st1, ceNavState.remove imgC = some st1 → ceNavState.mtimeOrderSet.size ≠ 0 →
      st1.currentPath ≠ some imgC.path_nf ∧
      ((ceNavState.currentPath = some imgC.path_nf ∨ st1.mtimeOrderSet.size = 0) →
        st1.currentPath = none ∧ st1.originalPixmap = none) :=
  (claim_C10_remove_resets_current ceNavState imgC).2

/-! Membership through the reconciliation path (rescan). -/

theorem add_mem_isSome {K : Type} [LinearOrder K] (kf : Option (ImageData → K))
    (rnd : Nat) (x : ImageData) (s : FastOrderedSet K) (p : String) :
    (mapLookup p (FastOrderedSet.add kf rnd x s).index_map).isSome ↔
      (mapLookup p s.index_map).isSome ∨ p = x.path_nf := by
  by_cases h : (mapLookup x.path_nf s.index_map).isSome
  · rw [FastOrderedSet.add_of_present kf rnd x s h]
    exact ⟨Or.inl, fun h2 => h2.elim id (fun hp => by rw [hp]; exact h)⟩
  · have hmap : (FastOrderedSet.add kf rnd x s).index_map = (x.path_nf, x) :: s.index_map := by
      unfold FastOrderedSet.add
      rw [if_neg h]
      cases kf <;> rfl
    rw [hmap]
    by_cases hp : x.path_nf = p
    · subst hp
      rw [mapLookup_cons_self]
      simp
    · rw [mapLookup_cons_ne hp]
      exact ⟨Or.inl, fun h2 => h2.elim id (fun h2 => absurd h2.symm hp)⟩

theorem update_mem_isSome {K : Type} [LinearOrder K] (kf : Option (ImageData → K)) :
    ∀ (xs : List ImageData) (s : FastOrderedSet K) (p : String),
    (mapLookup p (FastOrderedSet.update kf xs s).index_map).isSome ↔
      (mapLookup p s.index_map).isSome ∨ p ∈ xs.map ImageData.path_nf := by
  intro xs
  induction xs with
  | nil =>
    intro s p
    simp [FastOrderedSet.update]
  | cons x xs ih =>
    intro s p
    have hstep : FastOrderedSet.update kf (x :: xs) s =
        FastOrderedSet.update kf xs (FastOrderedSet.add kf 0 x s) := rfl
    rw [hstep, ih, add_mem_isSome, List.map_cons, List.mem_cons, or_assoc]

theorem loadImageFromFile_snd_sets (st : ViewerState) (loads : String → Bool)
    (x : ImageData) :
    (st.loadImageFromFile loads x).2.mtimeOrderSet = st.mtimeOrderSet ∧
    (st.loadImageFromFile loads x).2.randomOrderSet = st.randomOrderSet ∧
    (st.loadImageFromFile loads x).2.fnameOrderSet = st.fnameOrderSet ∧
    (st.loadImageFromFile loads x).2.selected_file_path = st.selected_file_path := by
  unfold ViewerState.loadImageFromFile
  by_cases h : loads x.path_nf = true
  · rw [if_pos h]
    exact ⟨rfl, rfl, rfl, rfl⟩
  · rw [if_neg h]
    exact ⟨rfl, rfl, rfl, rfl⟩

theorem handleNewImage_mtime (st : ViewerState) (loads : String → Bool)
    (batch : List ImageData) :
    (st.handleNewImage loads batch).mtimeOrderSet =
      FastOrderedSet.update (some mtimeKey) batch st.mtimeOrderSet := by
  simp only [ViewerState.handleNewImage]
  split
  · rfl
  · split
    · exact (loadImageFromFile_snd_sets _ loads _).1
    · rfl

theorem handleNewImage_random (st : ViewerState) (loads : String → Bool)
    (batch : List ImageData) :
    (st.handleNewImage loads batch).randomOrderSet =
      FastOrderedSet.update (some randomKeyFn) batch st.randomOrderSet := by
  simp only [ViewerState.handleNewImage]
  split
  · rfl
  · split
    · exact (loadImageFromFile_snd_sets _ loads _).2.1
    · rfl

theorem handleNewImage_fname (st : ViewerState) (loads : String → Bool)
    (batch : List ImageData) :
    (st.handleNewImage loads batch).fnameOrderSet =
      FastOrderedSet.update (some fnameKey) batch st.fnameOrderSet := by
  simp only [ViewerState.handleNewImage]
  split
  · rfl
  · split
    · exact (loadImageFromFile_snd_sets _ loads _).2.2.1
    · rfl

theorem rescan_fold_mem_mtime (loads : String → Bool) :
    ∀ (batches : List (List ImageData)) (st : ViewerState) (p : String),
    (mapLookup p
        ((batches.foldl (fun st batch => st.handleNewImage loads batch) st).mtimeOrderSet.index_map)).isSome ↔
      (mapLookup p st.mtimeOrderSet.index_map).isSome ∨
        p ∈ batches.flatten.map ImageData.path_nf := by
  intro batches
  induction batches with
  | nil =>
    intro st p
    simp
  | cons b bs ih =>
    intro st p
    rw [List.foldl_cons, ih, handleNewImage_mtime, update_mem_isSome,
      List.flatten_cons, List.map_append, List.mem_append, or_assoc]

theorem rescan_fold_mem_random (loads : String → Bool) :
    ∀ (batches : List (List ImageData)) (st : ViewerState) (p : String),
    (mapLookup p
        ((batches.foldl (fun st batch => st.handleNewImage loads batch) st).randomOrderSet.index_map)).isSome ↔
      (mapLookup p st.randomOrderSet.index_map).isSome ∨
        p ∈ batches.flatten.map ImageData.path_nf := by
  intro batches
  induction batches with
  | nil =>
    intro st p
    simp
  | cons b bs ih =>
    intro st p
    rw [List.foldl_cons, ih, handleNewImage_random, update_mem_isSome,
      List.flatten_cons, List.map_append, List.mem_append, or_assoc]

theorem rescan_fold_mem_fname (loads : String → Bool) :
    ∀ (batches : List (List ImageData)) (st : ViewerState) (p : String),
    (mapLookup p
        ((batches.foldl (fun st batch => st.handleNewImage loads batch) st).fnameOrderSet.index_map)).isSome ↔
      (mapLookup p st.fnameOrderSet.index_map).isSome ∨
        p ∈ batches.flatten.map ImageData.path_nf := by
  intro batches
  induction batches with
  | nil =>
    intro st p
    simp
  | cons b bs ih =>
    intro st p
    rw [List.foldl_cons, ih, handleNewImage_fname, update_mem_isSome,
      List.flatten_cons, List.map_append, List.mem_append, or_assoc]

/-- C2 counterexample: a rescan of the folder that now discovers only
imgB leaves the vanished path of imgA a member of all three ordered sets
(the reconciler never computes the symmetric difference and never
removes), contradicting the claim that after a rescan a path absent from
the discovery stream is no longer a member of any of the three sets. -/
theorem claim_C2_counterexample :
    imgA.path_nf ∉ ([[imgB]] : List (List ImageData)).flatten.map ImageData.path_nf ∧
    (mapLookup imgA.path_nf
      ((ceRescanState.rescan (fun _ => true) [[imgB]]).mtimeOrderSet.index_map)).isSome = true ∧
    (mapLookup imgA.path_nf
      ((ceRescanState.rescan (fun _ => true) [[imgB]]).randomOrderSet.index_map)).isSome = true ∧
    (mapLookup imgA.path_nf
      ((ceRescanState.rescan (fun _ => true) [[imgB]]).fnameOrderSet.index_map)).isSome = true := by
  decide

/-- C2 (amended): on a rescan of an already-loaded folder the three sets
are not cleared and no removal happens: after the rescan a path is a
member of each set exactly when it was a member before or appears in the
discovery stream, so a stale path stays a member until navigation later
fails to load it; adding an already-present path is a no-op on the set,
so unchanged paths suffer no churn or positional reset. -/
theorem claim_C2_amended_rescan (loads : String → Bool) (st : ViewerState)
    (batches : List (List ImageData)) :
    (∀ p, (mapLookup p (st.rescan loads batches).mtimeOrderSet.index_map).isSome ↔
      (mapLookup p st.mtimeOrderSet.index_map).isSome ∨
        p ∈ batches.flatten.map ImageData.path_nf) ∧
    (∀ p, (mapLookup p (st.rescan loads batches).randomOrderSet.index_map).isSome ↔
      (mapLookup p st.randomOrderSet.index_map).isSome ∨
        p ∈ batches.flatten.map ImageData.path_nf) ∧
    (∀ p, (mapLookup p (st.rescan loads batches).fnameOrderSet.index_map).isSome ↔
      (mapLookup p st.fnameOrderSet.index_map).isSome ∨
        p ∈ batches.flatten.map ImageData.path_nf) ∧
    (∀ (rnd : Nat) (x : ImageData),
      (mapLookup x.path_nf st.mtimeOrderSet.index_map).isSome →
      FastOrderedSet.add (some mtimeKey) rnd x st.mtimeOrderSet = st.mtimeOrderSet) := by
  refine ⟨?_, ?_, ?_, ?_⟩
  · intro p
    exact rescan_fold_mem_mtime loads batches st.rescanStart p
  · intro p
    exact rescan_fold_mem_random loads batches st.rescanStart p
  · intro p
    exact rescan_fold_mem_fname loads batches st.rescanStart p
  · intro rnd x h
    exact FastOrderedSet.add_of_present _ rnd x _ h

/-- Witness for the amended C2 on the concrete rescan scenario. -/
theorem claim_C2_witness :
    ((mapLookup imgA.path_nf
        ((ceRescanState.rescan (fun _ => true) [[imgB]]).mtimeOrderSet.index_map)).isSome ↔
      (mapLookup imgA.path_nf ceRescanState.mtimeOrderSet.index_map).isSome ∨
        imgA.path_nf ∈ ([[imgB]] : List (List ImageData)).flatten.map ImageData.path_nf) ∧
    FastOrderedSet.add (some mtimeKey) 7 imgA ceRescanState.mtimeOrderSet =
      ceRescanState.mtimeOrderSet :=
  ⟨(claim_C2_amended_rescan (fun _ => true) ceRescanState [[imgB]]).1 imgA.path_nf,
   (claim_C2_amended_rescan (fun _ => true) ceRescanState [[imgB]]).2.2.2 7 imgA (by decide)⟩

/-! Arithmetic of the wraparound candidate index and single steps of the
navigation loops. -/

theorem indexNextInc_eq (i n : Nat) : indexNextInc i n = (i + 1) % n := by
  unfold indexNextInc
  norm_cast

theorem indexNextDec_eq (i n : Nat) (hi : i < n) :
    indexNextDec i n = if i = 0 then n - 1 else i - 1 := by
  unfold indexNextDec
  by_cases h0 : i = 0
  · subst h0
    rw [if_pos rfl]
    have h1 : ((0 : Int) - 1) % (n : Int) = (n : Int) - 1 := by
      have h2 : ((0 : Int) - 1 + (n : Int) * 1) % (n : Int) = ((0 : Int) - 1) % (n : Int) :=
        Int.add_mul_emod_self_left ((0 : Int) - 1) (n : Int) 1
      rw [← h2]
      have h3 : (0 : Int) - 1 + (n : Int) * 1 = (n : Int) - 1 := by ring
      rw [h3]
      exact Int.emod_eq_of_lt (by omega) (by omega)
    rw [show ((0 : Nat) : Int) = (0 : Int) from rfl, h1]
    omega
  · rw [if_neg h0]
    have h1 : ((i : Int) - 1) % (n : Int) = (i : Int) - 1 :=
      Int.emod_eq_of_lt (by omega) (by omega)
    rw [h1]
    omega

theorem loadImageFromFile_true (st : ViewerState) (loads : String → Bool)
    (x : ImageData) (h : loads x.path_nf = true) :
    st.loadImageFromFile loads x =
      (true, { st with currentPath := some x.path_nf, originalPixmap := some x.path_nf }) := by
  unfold ViewerState.loadImageFromFile
  rw [if_pos h]

theorem loadImageFromFile_false (st : ViewerState) (loads : String → Bool)
    (x : ImageData) (h : loads x.path_nf = false) :
    st.loadImageFromFile loads x = (false, st) := by
  unfold ViewerState.loadImageFromFile
  rw [if_neg (by rw [h]; exact Bool.false_ne_true)]

theorem navLoopInc_stop (loads : String → Bool) (o : OrderName) (cp : String)
    (fuel : Nat) (st : ViewerState) (i : Nat)
    (hi : st.orderIndex o cp = some i) (hn0 : (st.orderItems o).length ≠ 0)
    (hguard : indexNextInc i (st.orderItems o).length < i) :
    navLoopInc loads false o cp (fuel + 1) st = some st := by
  simp only [navLoopInc, if_neg hn0, hi]
  rw [if_pos ⟨trivial, hguard⟩]

theorem navLoopInc_load (loads : String → Bool) (loop : Bool) (o : OrderName)
    (cp : String) (fuel : Nat) (st : ViewerState) (i : Nat) (c : ImageData)
    (hi : st.orderIndex o cp = some i) (hn0 : (st.orderItems o).length ≠ 0)
    (hng : ¬ (loop = false ∧ indexNextInc i (st.orderItems o).length < i))
    (hc : (st.orderItems o).get? (indexNextInc i (st.orderItems o).length) = some c)
    (hl : loads c.path_nf = true) :
    navLoopInc loads loop o cp (fuel + 1) st =
      some { st with currentPath := some c.path_nf, originalPixmap := some c.path_nf } := by
  simp only [navLoopInc, if_neg hn0, hi, if_neg hng, hc, loadImageFromFile_true st loads c hl]

theorem navLoopInc_fail (loads : String → Bool) (loop : Bool) (o : OrderName)
    (cp : String) (fuel : Nat) (st st1 : ViewerState) (i : Nat) (c : ImageData)
    (hi : st.orderIndex o cp = some i) (hn0 : (st.orderItems o).length ≠ 0)
    (hng : ¬ (loop = false ∧ indexNextInc i (st.orderItems o).length < i))
    (hc : (st.orderItems o).get? (indexNextInc i (st.orderItems o).length) = some c)
    (hl : loads c.path_nf = false) (hrem : st.remove c = some st1) :
    navLoopInc loads loop o cp (fuel + 1) st = navLoopInc loads loop o cp fuel st1 := by
  simp only [navLoopInc, if_neg hn0, hi, if_neg hng, hc,
    loadImageFromFile_false st loads c hl, hrem]

theorem navLoopDec_stop (loads : String → Bool) (o : OrderName) (cp : String)
    (fuel : Nat) (st : ViewerState) (i : Nat)
    (hi : st.orderIndex o cp = some i) (hn0 : (st.orderItems o).length ≠ 0)
    (hguard : i < indexNextDec i (st.orderItems o).length) :
    navLoopDec loads false o cp (fuel + 1) st = some st := by
  simp only [navLoopDec, if_neg hn0, hi]
  rw [if_pos ⟨trivial, hguard⟩]

theorem navLoopDec_load (loads : String → Bool) (loop : Bool) (o : OrderName)
    (cp : String) (fuel : Nat) (st : ViewerState) (i : Nat) (c : ImageData)
    (hi : st.orderIndex o cp = some i) (hn0 : (st.orderItems o).length ≠ 0)
    (hng : ¬ (loop = false ∧ i < indexNextDec i (st.orderItems o).length))
    (hc : (st.orderItems o).get? (indexNextDec i (st.orderItems o).length) = some c)
    (hl : loads c.path_nf = true) :
    navLoopDec loads loop o cp (fuel + 1) st =
      some { st with currentPath := some c.path_nf, originalPixmap := some c.path_nf } := by
  simp only [navLoopDec, if_neg hn0, hi, if_neg hng, hc, loadImageFromFile_true st loads c hl]

theorem orderIndex_lt_length (st : ViewerState) (o : OrderName) (v : String) (i : Nat)
    (hi : st.orderIndex o v = some i) : i < (st.orderItems o).length := by
  have he : st.orderIndex o v =
      (match mapLookup v (st.orderMap o) with
        | some r =>
          if r ∈ st.orderItems o then some (listIndexOf r (st.orderItems o)) else none
        | none => none) := by
    cases o <;> rfl
  rw [he] at hi
  match hl : mapLookup v (st.orderMap o) with
  | some r =>
    simp only [hl] at hi
    by_cases hm : r ∈ st.orderItems o
    · rw [if_pos hm] at hi
      obtain rfl := Option.some_inj.mp hi
      exact listIndexOf_lt_length hm
    · rw [if_neg hm] at hi
      cases hi
  | none =>
    simp only [hl] at hi
    exact Option.noConfusion hi

/-- C1 counterexample: on the vertical axis the claimed candidate
arithmetic is wrong.  In a 3-element vertical (mtime) order with the
current position at the last index 2 and loop mode disabled, the claim
says the wrapped candidate is (2 + 1) mod 3 = 0 which is less than 2, so
next must stop without changing position; the source instead computes
(2 - 1) mod 3 = 1 and moves to the record at index 1. -/
theorem claim_C1_counterexample :
    ceNavState.boundOrder Axis.vertical = OrderName.mtime ∧
    (ceNavState.orderItems OrderName.mtime).length = 3 ∧
    ceNavState.currentPath = some imgC.path_nf ∧
    ceNavState.orderIndex OrderName.mtime imgC.path_nf = some 2 ∧
    (ceNavState.orderItems OrderName.mtime).get? 1 = some imgB ∧
    ceNavState.nextImage (fun _ => true) false Axis.vertical ≠ some ceNavState ∧
    ceNavState.nextImage (fun _ => true) false Axis.vertical =
      some { ceNavState with
               currentPath := some imgB.path_nf
               originalPixmap := some imgB.path_nf } := by
  decide

/-- C1 (amended): for a working set with the current position at index i
of the order bound to an axis, one navigation step computes the candidate
index by the axis direction: next on the horizontal axis uses
(i + 1) mod size and, when loop mode is disabled and the wrapped
candidate is numerically less than i, stops without changing the state;
next on the vertical axis instead uses (i - 1) mod size (the last index
for i = 0, else i - 1) and stops when loop mode is disabled and the
wrapped candidate is numerically greater than i.  When the guard does not
fire and the candidate loads, the current position moves to the
candidate (in particular, with loop enabled, horizontal next wraps from
the last position to position 0 and vertical next wraps from position 0
to the last position). -/
theorem claim_C1_amended (axis : Axis) (loads : String → Bool) (loop : Bool)
    (st : ViewerState) (p : String) (i n : Nat)
    (hn : (st.orderItems (st.boundOrder axis)).length = n)
    (hcp : st.currentPath = some p)
    (hi : st.orderIndex (st.boundOrder axis) p = some i) :
    (axis = Axis.horizontal → axisNextIndex axis i n = (i + 1) % n) ∧
    (axis = Axis.vertical → axisNextIndex axis i n = if i = 0 then n - 1 else i - 1) ∧
    (loop = false → axisStopGuard axis i (axisNextIndex axis i n) →
      st.nextImage loads loop axis = some st) ∧
    (∀ c, (st.orderItems (st.boundOrder axis)).get? (axisNextIndex axis i n) = some c →
      loads c.path_nf = true →
      (loop = true ∨ ¬ axisStopGuard axis i (axisNextIndex axis i n)) →
      st.nextImage loads loop axis =
        some { st with currentPath := some c.path_nf, originalPixmap := some c.path_nf }) := by
  subst hn
  have hilt : i < (st.orderItems (st.boundOrder axis)).length :=
    orderIndex_lt_length st (st.boundOrder axis) p i hi
  have hn0 : (st.orderItems (st.boundOrder axis)).length ≠ 0 := by omega
  cases axis with
  | horizontal =>
    refine ⟨?_, ?_, ?_, ?_⟩
    · intro _
      exact indexNextInc_eq i _
    · intro hc
      exact absurd hc (by decide)
    · intro hloop hguard
      subst hloop
      have hn02 : (st.orderItems st.horizontalOrder).length ≠ 0 := hn0
      show st.horizontalNextImage loads false = some st
      unfold ViewerState.horizontalNextImage
      rw [if_neg hn02, hcp]
      exact navLoopInc_stop loads st.horizontalOrder p _ st i hi hn02 hguard
    · intro c hc hl hng
      have hn02 : (st.orderItems st.horizontalOrder).length ≠ 0 := hn0
      show st.horizontalNextImage loads loop = some _
      unfold ViewerState.horizontalNextImage
      rw [if_neg hn02, hcp]
      refine navLoopInc_load loads loop st.horizontalOrder p _ st i c hi hn02 ?_ hc hl
      intro hand
      rcases hng with ht | hg
      · rw [ht] at hand
        exact absurd hand.1 (by simp)
      · exact hg hand.2
  | vertical =>
    refine ⟨?_, ?_, ?_, ?_⟩
    · intro hc
      exact absurd hc (by decide)
    · intro _
      exact indexNextDec_eq i _ hilt
    · intro hloop hguard
      subst hloop
      have hn02 : (st.orderItems st.verticalOrder).length ≠ 0 := hn0
      show st.verticalNextImage loads false = some st
      unfold ViewerState.verticalNextImage
      rw [if_neg hn02, hcp]
      exact navLoopDec_stop loads st.verticalOrder p _ st i hi hn02 hguard
    · intro c hc hl hng
      have hn02 : (st.orderItems st.verticalOrder).length ≠ 0 := hn0
      show st.verticalNextImage loads loop = some _
      unfold ViewerState.verticalNextImage
      rw [if_neg hn02, hcp]
      refine navLoopDec_load loads loop st.verticalOrder p _ st i c hi hn02 ?_ hc hl
      intro hand
      rcases hng with ht | hg
      · rw [ht] at hand
        exact absurd hand.1 (by simp)
      · exact hg hand.2

/-- Witness for the amended C1: vertical next with loop enabled moves
from the last record imgC to imgB at index 1. -/
theorem claim_C1_witness :
    ceNavState.nextImage (fun _ => true) true Axis.vertical =
      some { ceNavState with
               currentPath := some imgB.path_nf
               originalPixmap := some imgB.path_nf } :=
  (claim_C1_amended Axis.vertical (fun _ => true) true ceNavState imgC.path_nf 2 3
    (by decide) (by decide) (by decide)).2.2.2 imgB (by decide) (by decide) (Or.inl rfl)

/-! Viewer-level removal, characterized for navigation proofs. -/

theorem orderIndex_spec (st : ViewerState) (o : OrderName) (v : String) :
    st.orderIndex o v =
      (match mapLookup v (st.orderMap o) with
        | some r =>
          if r ∈ st.orderItems o then some (listIndexOf r (st.orderItems o)) else none
        | none => none) := by
  cases o <;> rfl

theorem orderIndex_of_member (st : ViewerState) (o : OrderName) (x : ImageData)
    (hwo : WfMapItems (st.orderMap o) (st.orderItems o)) (hmem : x ∈ st.orderItems o) :
    st.orderIndex o x.path_nf = some (listIndexOf x (st.orderItems o)) := by
  rw [orderIndex_spec]
  simp only [hwo.2.1 x hmem]
  rw [if_pos hmem]

theorem viewerWf_order_wfMapItems (st : ViewerState) (hw : ViewerWf st) (o : OrderName) :
    WfMapItems (st.orderMap o) (st.orderItems o) := by
  cases o with
  | mtime => exact hw.1
  | random => exact hw.2.1
  | fname => exact hw.2.2.1

theorem viewerWf_order_perm (st : ViewerState) (hw : ViewerWf st) (o : OrderName) :
    (st.orderItems o).Perm st.mtimeOrderSet.items := by
  cases o with
  | mtime => exact List.Perm.refl _
  | random => exact hw.2.2.2.2.2.2.2.2.1
  | fname => exact hw.2.2.2.2.2.2.2.2.2

theorem viewer_remove_spec (st : ViewerState) (x : ImageData) (hw : ViewerWf st)
    (hmem : x ∈ st.mtimeOrderSet.items)
    (hm0 : (st.mtimeOrderSet.items.erase x).length ≠ 0)
    (hcur : st.currentPath ≠ some x.path_nf) :
    ∃ st1, st.remove x = some st1 ∧ ViewerWf st1 ∧
      st1.mtimeOrderSet.items = st.mtimeOrderSet.items.erase x ∧
      st1.mtimeOrderSet.index_map = mapErase x.path_nf st.mtimeOrderSet.index_map ∧
      st1.randomOrderSet.items = st.randomOrderSet.items.erase x ∧
      st1.randomOrderSet.index_map = mapErase x.path_nf st.randomOrderSet.index_map ∧
      st1.fnameOrderSet.items = st.fnameOrderSet.items.erase x ∧
      st1.fnameOrderSet.index_map = mapErase x.path_nf st.fnameOrderSet.index_map ∧
      st1.currentPath = st.currentPath ∧
      st1.verticalOrder = st.verticalOrder ∧
      st1.horizontalOrder = st.horizontalOrder := by
  obtain ⟨w1, w2, w3, k1, k2, k3, m2, m3, p2, p3⟩ := hw
  have hx1 : mapLookup x.path_nf st.mtimeOrderSet.index_map = some x := w1.2.1 x hmem
  have hmem2 : x ∈ st.randomOrderSet.items := p2.mem_iff.mpr hmem
  have hmem3 : x ∈ st.fnameOrderSet.items := p3.mem_iff.mpr hmem
  have hx2 : mapLookup x.path_nf st.randomOrderSet.index_map = some x := by
    rw [m2]
    exact hx1
  have hx3 : mapLookup x.path_nf st.fnameOrderSet.index_map = some x := by
    rw [m3]
    exact hx1
  have hne : st.mtimeOrderSet.size ≠ 0 := by
    show st.mtimeOrderSet.items.length ≠ 0
    intro hzero
    rw [List.length_eq_zero] at hzero
    rw [hzero] at hmem
    cases hmem
  have hrm := FastOrderedSet.remove_eq_of_lookup mtimeKey x st.mtimeOrderSet w1 k1 hx1
  have hrr := FastOrderedSet.remove_eq_of_lookup randomKeyFn x st.randomOrderSet w2 k2 hx2
  have hrf := FastOrderedSet.remove_eq_of_lookup fnameKey x st.fnameOrderSet w3 k3 hx3
  have hwm := FastOrderedSet.wfPath_remove _ x _ _ w1 (fun g hg => by
    obtain rfl := Option.some_inj.mp hg
    exact k1) hrm
  have hkm := FastOrderedSet.wfKeys_remove mtimeKey x _ _ w1 k1 hrm
  have hwr := FastOrderedSet.wfPath_remove _ x _ _ w2 (fun g hg => by
    obtain rfl := Option.some_inj.mp hg
    exact k2) hrr
  have hkr := FastOrderedSet.wfKeys_remove randomKeyFn x _ _ w2 k2 hrr
  have hwq := FastOrderedSet.wfPath_remove _ x _ _ w3 (fun g hg => by
    obtain rfl := Option.some_inj.mp hg
    exact k3) hrf
  have hkq := FastOrderedSet.wfKeys_remove fnameKey x _ _ w3 k3 hrf
  unfold ViewerState.remove
  rw [if_neg hne]
  simp only [hrm, hrr, hrf]
  rw [if_neg (by
    intro hor
    rcases hor with hz | hcp
    · exact hm0 hz
    · exact hcur hcp)]
  refine ⟨_, rfl, ?_, rfl, rfl, rfl, rfl, rfl, rfl, rfl, rfl, rfl⟩
  refine ⟨hwm, hwr, hwq, hkm, hkr, hkq, ?_, ?_, ?_, ?_⟩
  · show mapErase x.path_nf st.randomOrderSet.index_map =
      mapErase x.path_nf st.mtimeOrderSet.index_map
    rw [m2]
  · show mapErase x.path_nf st.fnameOrderSet.index_map =
      mapErase x.path_nf st.mtimeOrderSet.index_map
    rw [m3]
  · exact p2.erase x
  · exact p3.erase x

theorem horizontalNext_retry (loads : String → Bool) (st : ViewerState)
    (cur c1 c2 : ImageData) (i1 i2 : Nat)
    (hw : ViewerWf st)
    (hcur : st.currentPath = some cur.path_nf)
    (hmem : cur ∈ st.orderItems st.horizontalOrder)
    (hi1 : listIndexOf cur (st.orderItems st.horizontalOrder) = i1)
    (hc1 : (st.orderItems st.horizontalOrder).get?
      (indexNextInc i1 (st.orderItems st.horizontalOrder).length) = some c1)
    (hfail : loads c1.path_nf = false)
    (hne1 : cur.path_nf ≠ c1.path_nf)
    (hlen2 : 2 ≤ (st.orderItems st.horizontalOrder).length)
    (hmemE : cur ∈ (st.orderItems st.horizontalOrder).erase c1)
    (hi2 : listIndexOf cur ((st.orderItems st.horizontalOrder).erase c1) = i2)
    (hc2 : ((st.orderItems st.horizontalOrder).erase c1).get?
      (indexNextInc i2 ((st.orderItems st.horizontalOrder).erase c1).length) = some c2)
    (hsucc : loads c2.path_nf = true) :
    ∃ st1, st.horizontalNextImage loads true = some st1 ∧
      st1.currentPath = some c2.path_nf ∧
      st1.mtimeOrderSet.size = st.mtimeOrderSet.size - 1 ∧
      st1.randomOrderSet.size = st.randomOrderSet.size - 1 ∧
      st1.fnameOrderSet.size = st.fnameOrderSet.size - 1 ∧
      mapLookup c1.path_nf st1.mtimeOrderSet.index_map = none ∧
      mapLookup c1.path_nf st1.randomOrderSet.index_map = none ∧
      mapLookup c1.path_nf st1.fnameOrderSet.index_map = none := by
  have hwo : WfMapItems (st.orderMap st.horizontalOrder) (st.orderItems st.horizontalOrder) :=
    viewerWf_order_wfMapItems st hw st.horizontalOrder
  have hperm : (st.orderItems st.horizontalOrder).Perm st.mtimeOrderSet.items :=
    viewerWf_order_perm st hw st.horizontalOrder
  have hmemc1 : c1 ∈ st.orderItems st.horizontalOrder := by
    have := List.get?_mem hc1
    exact this
  have hmemM1 : c1 ∈ st.mtimeOrderSet.items := hperm.mem_iff.mp hmemc1
  have hlenM : st.mtimeOrderSet.items.length = (st.orderItems st.horizontalOrder).length :=
    hperm.length_eq.symm
  have hm0 : (st.mtimeOrderSet.items.erase c1).length ≠ 0 := by
    rw [List.length_erase_of_mem hmemM1, hlenM]
    omega
  have hcur1 : st.currentPath ≠ some c1.path_nf := by
    rw [hcur]
    intro hc
    exact hne1 (Option.some_inj.mp hc)
  obtain ⟨stR, hrem, hwR, hMi, hMm, hRi, hRm, hFi, hFm, hRcur, hRv, hRh⟩ :=
    viewer_remove_spec st c1 hw hmemM1 hm0 hcur1
  have horderR : ∀ o2, stR.orderItems o2 = (st.orderItems o2).erase c1 := by
    intro o2
    cases o2 with
    | mtime => exact hMi
    | random => exact hRi
    | fname => exact hFi
  have hmapR : ∀ o2, stR.orderMap o2 = mapErase c1.path_nf (st.orderMap o2) := by
    intro o2
    cases o2 with
    | mtime => exact hMm
    | random => exact hRm
    | fname => exact hFm
  have hn0 : (st.orderItems st.horizontalOrder).length ≠ 0 := by omega
  have hidx0 : st.orderIndex st.horizontalOrder cur.path_nf = some i1 := by
    rw [orderIndex_of_member st _ cur hwo hmem, hi1]
  have hwoR : WfMapItems (stR.orderMap st.horizontalOrder) (stR.orderItems st.horizontalOrder) :=
    viewerWf_order_wfMapItems stR hwR st.horizontalOrder
  have hmemR : cur ∈ stR.orderItems st.horizontalOrder := by
    rw [horderR]
    exact hmemE
  have hidxR : stR.orderIndex st.horizontalOrder cur.path_nf = some i2 := by
    rw [orderIndex_of_member stR _ cur hwoR hmemR, horderR, hi2]
  have hnR : (stR.orderItems st.horizontalOrder).length ≠ 0 := by
    rw [horderR, List.length_erase_of_mem hmemc1]
    omega
  have hcR : (stR.orderItems st.horizontalOrder).get?
      (indexNextInc i2 (stR.orderItems st.horizontalOrder).length) = some c2 := by
    rw [horderR]
    exact hc2
  obtain ⟨k, hk⟩ : ∃ k, (st.orderItems st.horizontalOrder).length = k + 2 :=
    ⟨(st.orderItems st.horizontalOrder).length - 2, by omega⟩
  have h1 : navLoopInc loads true st.horizontalOrder cur.path_nf
      ((st.orderItems st.horizontalOrder).length + 1) st =
      navLoopInc loads true st.horizontalOrder cur.path_nf
        (st.orderItems st.horizontalOrder).length stR :=
    navLoopInc_fail loads true st.horizontalOrder cur.path_nf
      (st.orderItems st.horizontalOrder).length st stR i1 c1 hidx0 hn0
      (by simp) hc1 hfail hrem
  have h2 : navLoopInc loads true st.horizontalOrder cur.path_nf
      (st.orderItems st.horizontalOrder).length stR =
      some { stR with currentPath := some c2.path_nf, originalPixmap := some c2.path_nf } := by
    rw [hk]
    exact navLoopInc_load loads true st.horizontalOrder cur.path_nf (k + 1) stR i2 c2
      hidxR hnR (by simp) hcR hsucc
  refine ⟨{ stR with currentPath := some c2.path_nf, originalPixmap := some c2.path_nf },
    ?_, rfl, ?_, ?_, ?_, ?_, ?_, ?_⟩
  · unfold ViewerState.horizontalNextImage
    rw [if_neg hn0, hcur]
    exact h1.trans h2
  · show stR.mtimeOrderSet.items.length = st.mtimeOrderSet.items.length - 1
    rw [hMi, List.length_erase_of_mem hmemM1]
  · show stR.randomOrderSet.items.length = st.randomOrderSet.items.length - 1
    rw [hRi, List.length_erase_of_mem (hw.2.2.2.2.2.2.2.2.1.mem_iff.mpr hmemM1)]
  · show stR.fnameOrderSet.items.length = st.fnameOrderSet.items.length - 1
    rw [hFi, List.length_erase_of_mem (hw.2.2.2.2.2.2.2.2.2.mem_iff.mpr hmemM1)]
  · show mapLookup c1.path_nf stR.mtimeOrderSet.index_map = none
    rw [hMm]
    exact mapLookup_mapErase_self hw.1.2.2.2
  · show mapLookup c1.path_nf stR.randomOrderSet.index_map = none
    rw [hRm]
    exact mapLookup_mapErase_self hw.2.1.2.2.2
  · show mapLookup c1.path_nf stR.fnameOrderSet.index_map = none
    rw [hFm]
    exact mapLookup_mapErase_self hw.2.2.1.2.2.2

/-- C5: in a 3-element working set bound to the horizontal axis with
loop mode enabled, when the candidate computed by next fails to load but
the candidate after it loads, a single next call removes the vanished
record from all three Ordered Identity Sets (its path resolves in none
of the lookup dicts), sets the current position to the second candidate,
and leaves all three sizes equal to 2; the remove-and-retry loop
terminates after the one retry because the failed iteration shrank the
set. -/
theorem claim_C5_self_healing (loads : String → Bool) (st : ViewerState)
    (x0 x1 x2 : ImageData) (i : Fin 3)
    (hw : ViewerWf st)
    (hitems : st.orderItems st.horizontalOrder = [x0, x1, x2])
    (hcur : st.currentPath = some (([x0, x1, x2].get ⟨i.val, i.isLt⟩).path_nf))
    (hfail : loads (([x0, x1, x2].get ⟨(i.val + 1) % 3, by simp only [List.length_cons, List.length_nil]; omega⟩).path_nf) = false)
    (hsucc : loads (([x0, x1, x2].get ⟨(i.val + 2) % 3, by simp only [List.length_cons, List.length_nil]; omega⟩).path_nf) = true) :
    ∃ st1, st.horizontalNextImage loads true = some st1 ∧
      st1.currentPath = some (([x0, x1, x2].get ⟨(i.val + 2) % 3, by simp only [List.length_cons, List.length_nil]; omega⟩).path_nf) ∧
      st1.mtimeOrderSet.size = 2 ∧ st1.randomOrderSet.size = 2 ∧
      st1.fnameOrderSet.size = 2 ∧
      mapLookup (([x0, x1, x2].get ⟨(i.val + 1) % 3, by simp only [List.length_cons, List.length_nil]; omega⟩).path_nf)
        st1.mtimeOrderSet.index_map = none ∧
      mapLookup (([x0, x1, x2].get ⟨(i.val + 1) % 3, by simp only [List.length_cons, List.length_nil]; omega⟩).path_nf)
        st1.randomOrderSet.index_map = none ∧
      mapLookup (([x0, x1, x2].get ⟨(i.val + 1) % 3, by simp only [List.length_cons, List.length_nil]; omega⟩).path_nf)
        st1.fnameOrderSet.index_map = none := by
  have hwo := viewerWf_order_wfMapItems st hw st.horizontalOrder
  have hnd : (([x0, x1, x2] : List ImageData).map ImageData.path_nf).Nodup := by
    rw [← hitems]
    exact hwo.2.2.1
  simp only [List.map_cons, List.map_nil] at hnd
  have hp01 : x0.path_nf ≠ x1.path_nf := fun h =>
    (List.nodup_cons.mp hnd).1 (by rw [h]; exact List.mem_cons_self _ _)
  have hp02 : x0.path_nf ≠ x2.path_nf := fun h =>
    (List.nodup_cons.mp hnd).1 (by rw [h]; simp)
  have hp12 : x1.path_nf ≠ x2.path_nf := fun h =>
    (List.nodup_cons.mp (List.nodup_cons.mp hnd).2).1 (by rw [h]; simp)
  have hr01 : x0 ≠ x1 := fun h => hp01 (congrArg ImageData.path_nf h)
  have hr02 : x0 ≠ x2 := fun h => hp02 (congrArg ImageData.path_nf h)
  have hr12 : x1 ≠ x2 := fun h => hp12 (congrArg ImageData.path_nf h)
  have hpermM := viewerWf_order_perm st hw st.horizontalOrder
  have hszM : st.mtimeOrderSet.items.length = 3 := by
    rw [← hpermM.length_eq, hitems]
    rfl
  have hszR : st.randomOrderSet.items.length = 3 := by
    rw [hw.2.2.2.2.2.2.2.2.1.length_eq, hszM]
  have hszF : st.fnameOrderSet.items.length = 3 := by
    rw [hw.2.2.2.2.2.2.2.2.2.length_eq, hszM]
  have hlen2 : 2 ≤ (st.orderItems st.horizontalOrder).length := by
    rw [hitems]
    simp only [List.length_cons, List.length_nil]
    omega
  fin_cases i
  · have he : ([x0, x1, x2] : List ImageData).erase x1 = [x0, x2] := by
      rw [List.erase_cons_tail (by simp [hr01]), List.erase_cons_head]
    obtain ⟨st1, hnav, hcp, hsM, hsR, hsF, hlkM, hlkR, hlkF⟩ :=
      horizontalNext_retry loads st x0 x1 x2 0 0 hw hcur
        (by rw [hitems]; exact List.mem_cons_self _ _)
        (by rw [hitems]; simp [listIndexOf])
        (by rw [hitems]
            show ([x0, x1, x2] : List ImageData).get? (indexNextInc 0 3) = some x1
            rfl)
        hfail hp01 hlen2
        (by rw [hitems, he]; exact List.mem_cons_self _ _)
        (by rw [hitems, he]; simp [listIndexOf])
        (by rw [hitems, he]
            show ([x0, x2] : List ImageData).get? (indexNextInc 0 2) = some x2
            rfl)
        hsucc
    refine ⟨st1, hnav, hcp, ?_, ?_, ?_, hlkM, hlkR, hlkF⟩
    · rw [hsM]
      show st.mtimeOrderSet.items.length - 1 = 2
      rw [hszM]
    · rw [hsR]
      show st.randomOrderSet.items.length - 1 = 2
      rw [hszR]
    · rw [hsF]
      show st.fnameOrderSet.items.length - 1 = 2
      rw [hszF]
  · have he : ([x0, x1, x2] : List ImageData).erase x2 = [x0, x1] := by
      rw [List.erase_cons_tail (by simp [hr02]), List.erase_cons_tail (by simp [hr12]),
        List.erase_cons_head]
    obtain ⟨st1, hnav, hcp, hsM, hsR, hsF, hlkM, hlkR, hlkF⟩ :=
      horizontalNext_retry loads st x1 x2 x0 1 1 hw hcur
        (by rw [hitems]; simp)
        (by rw [hitems]; simp [listIndexOf, hr01])
        (by rw [hitems]
            show ([x0, x1, x2] : List ImageData).get? (indexNextInc 1 3) = some x2
            rfl)
        hfail hp12 hlen2
        (by rw [hitems, he]; simp)
        (by rw [hitems, he]; simp [listIndexOf, hr01])
        (by rw [hitems, he]
            show ([x0, x1] : List ImageData).get? (indexNextInc 1 2) = some x0
            rfl)
        hsucc
    refine ⟨st1, hnav, hcp, ?_, ?_, ?_, hlkM, hlkR, hlkF⟩
    · rw [hsM]
      show st.mtimeOrderSet.items.length - 1 = 2
      rw [hszM]
    · rw [hsR]
      show st.randomOrderSet.items.length - 1 = 2
      rw [hszR]
    · rw [hsF]
      show st.fnameOrderSet.items.length - 1 = 2
      rw [hszF]
  · have he : ([x0, x1, x2] : List ImageData).erase x0 = [x1, x2] :=
      List.erase_cons_head x0 [x1, x2]
    obtain ⟨st1, hnav, hcp, hsM, hsR, hsF, hlkM, hlkR, hlkF⟩ :=
      horizontalNext_retry loads st x2 x0 x1 2 1 hw hcur
        (by rw [hitems]; simp)
        (by rw [hitems]; simp [listIndexOf, hr02, hr12])
        (by rw [hitems]
            show ([x0, x1, x2] : List ImageData).get? (indexNextInc 2 3) = some x0
            rfl)
        hfail (Ne.symm hp02) hlen2
        (by rw [hitems, he]; simp)
        (by rw [hitems, he]; simp [listIndexOf, hr12])
        (by rw [hitems, he]
            show ([x1, x2] : List ImageData).get? (indexNextInc 1 2) = some x1
            rfl)
        hsucc
    refine ⟨st1, hnav, hcp, ?_, ?_, ?_, hlkM, hlkR, hlkF⟩
    · rw [hsM]
      show st.mtimeOrderSet.items.length - 1 = 2
      rw [hszM]
    · rw [hsR]
      show st.randomOrderSet.items.length - 1 = 2
      rw [hszR]
    · rw [hsF]
      show st.fnameOrderSet.items.length - 1 = 2
      rw [hszF]

theorem viewerWf_mkViewer (xs : List ImageData) (v h : OrderName) (cp : Option String) :
    ViewerWf (mkViewer xs v h cp) := by
  refine ⟨?_, ?_, ?_, ?_, ?_, ?_, ?_, ?_, ?_, ?_⟩
  · exact update_wfPath _ xs _ empty_wfPath
  · exact update_wfPath _ xs _ empty_wfPath
  · exact update_wfPath _ xs _ empty_wfPath
  · exact update_wfKeys mtimeKey xs _ (empty_wfKeys _)
  · exact update_wfKeys randomKeyFn xs _ (empty_wfKeys _)
  · exact update_wfKeys fnameKey xs _ (empty_wfKeys _)
  · exact (update_sameMembers randomKeyFn mtimeKey xs _ _ empty_sameMembers).1
  · exact (update_sameMembers fnameKey mtimeKey xs _ _ empty_sameMembers).1
  · exact (update_sameMembers randomKeyFn mtimeKey xs _ _ empty_sameMembers).2
  · exact (update_sameMembers fnameKey mtimeKey xs _ _ empty_sameMembers).2

/-- Witness for C5: in a populated viewer showing imgA with the random
order (hash order imgA, imgB, imgC) on the horizontal axis, when imgB no
longer loads, one horizontal next lands on imgC and leaves the three
sets with two members each, imgB gone from all of them. -/
theorem claim_C5_witness :
    ∃ st1, (mkViewer [imgA, imgB, imgC] OrderName.mtime OrderName.random
        (some imgA.path_nf)).horizontalNextImage
          (fun p => if p = imgB.path_nf then false else true) true = some st1 ∧
      st1.currentPath = some imgC.path_nf ∧
      st1.mtimeOrderSet.size = 2 ∧ st1.randomOrderSet.size = 2 ∧
      st1.fnameOrderSet.size = 2 ∧
      mapLookup imgB.path_nf st1.mtimeOrderSet.index_map = none ∧
      mapLookup imgB.path_nf st1.randomOrderSet.index_map = none ∧
      mapLookup imgB.path_nf st1.fnameOrderSet.index_map = none :=
  claim_C5_self_healing (fun p => if p = imgB.path_nf then false else true)
    (mkViewer [imgA, imgB, imgC] OrderName.mtime OrderName.random (some imgA.path_nf))
    imgA imgB imgC 0 (viewerWf_mkViewer _ _ _ _) (by decide) (by decide) (by decide)
    (by decide)
